import Mathlib

/-!
Verification development for the CodePaste payment bot
(`bot.py`, `ocr.py`, `license_manager.py`).

The Python sources are shallowly embedded as executable Lean definitions:
 * payment amounts are modelled as exact rationals (`ℚ`), Python `float`
   arithmetic being idealised as exact arithmetic;
 * byte strings are modelled as `List Nat` with entries below 256;
 * the external `json` / UTF-8 / base64 layers are implemented concretely,
   following the exact wire shapes the source produces (the JSON serializer
   omits the escaping `json.dumps` would perform on `"` and control
   characters, so the round-trip theorems assume the UTR carries no `"`);
 * the external `cryptography.fernet` authenticated-encryption layer is
   modelled (from the spec's "symmetric authenticated encryption
   (confidentiality + integrity)") as the identity on plaintext bytes plus an
   appended 6-byte authentication tag keyed by the shared secret; decryption
   succeeds exactly when the tag matches, which captures the integrity
   contract the source relies on;
 * MongoDB is modelled as an in-memory list of records plus a boolean
   "reachable" flag per call, and the Telegram transport is dropped: the
   photo handler becomes a function from the OCR record and the store to a
   terminal outcome and an updated store;
 * wall-clock time is an explicit natural-number argument (epoch seconds,
   the process's local timezone assumed to be UTC as the source's comments
   assume, and timestamps assumed inside `datetime`'s representable range).
-/

/-! ### Generic character/number parsing helpers -/

/-- Longest prefix of characters satisfying `p`, with the remainder. -/
def spanP (p : Char → Bool) : List Char → List Char × List Char
  | [] => ([], [])
  | c :: cs =>
    if p c then
      let r := spanP p cs
      (c :: r.1, r.2)
    else ([], c :: cs)

theorem spanP_append (p : Char → Bool) (xs ys : List Char)
    (h1 : ∀ c ∈ xs, p c = true)
    (h2 : match ys with | [] => True | y :: _ => p y = false) :
    spanP p (xs ++ ys) = (xs, ys) := by
  induction xs with
  | nil =>
    cases ys with
    | nil => rfl
    | cons y ys' => simp_all [spanP]
  | cons x xs ih =>
    have hx : p x = true := h1 x (List.mem_cons_self _ _)
    have : spanP p (xs ++ ys) = (xs, ys) := ih (fun c hc => h1 c (List.mem_cons_of_mem _ hc))
    simp [spanP, hx, this]

theorem spanP_snd_length_le (p : Char → Bool) (cs : List Char) :
    (spanP p cs).2.length ≤ cs.length := by
  induction cs with
  | nil => simp [spanP]
  | cons c cs ih =>
    by_cases h : p c = true
    · simp [spanP, h]; omega
    · simp [spanP, h] at *

theorem spanP_length (p : Char → Bool) (cs : List Char) :
    (spanP p cs).1.length + (spanP p cs).2.length = cs.length := by
  induction cs with
  | nil => simp [spanP]
  | cons c cs ih =>
    by_cases h : p c = true
    · simp [spanP, h]; omega
    · simp [spanP, h]

/-- Match a literal character sequence at the head of the input and
return the remainder, failing otherwise. -/
def expectS : List Char → List Char → Option (List Char)
  | [], cs => some cs
  | _ :: _, [] => none
  | p :: ps, c :: cs => if c = p then expectS ps cs else none

theorem expectS_append (ps rest : List Char) : expectS ps (ps ++ rest) = some rest := by
  induction ps with
  | nil => rfl
  | cons p ps ih => simp [expectS, ih]

/-- The decimal digit character for `n < 10`. -/
def digitChar10 (n : Nat) : Char := Char.ofNat (48 + n)

/-- Fuelled decimal printer (the fuel only bounds the recursion depth;
`natChars` instantiates it with a sufficient fuel). -/
def natCharsF : Nat → Nat → List Char
  | 0, _ => []
  | fuel + 1, n =>
    if n < 10 then [digitChar10 n]
    else natCharsF fuel (n / 10) ++ [digitChar10 (n % 10)]

/-- Decimal representation of a natural number, as produced by Python's
`str`/`json.dumps` for a non-negative `int`. -/
def natChars (n : Nat) : List Char := natCharsF (n + 1) n

/-- Decimal representation of a Python `int`, including the sign. -/
def intChars (i : Int) : List Char :=
  if i < 0 then '-' :: natChars i.natAbs else natChars i.natAbs

/-- Numeric value of a list of decimal digit characters. -/
def digitsVal (ds : List Char) : Nat :=
  ds.foldl (fun a c => a * 10 + (c.toNat - 48)) 0

theorem digitChar10_isDigit {n : Nat} (h : n < 10) : (digitChar10 n).isDigit = true := by
  interval_cases n <;> decide

theorem digitChar10_toNat {n : Nat} (h : n < 10) : (digitChar10 n).toNat = 48 + n := by
  interval_cases n <;> decide

theorem natCharsF_isDigit {fuel n : Nat} (hf : n < fuel) :
    ∀ c ∈ natCharsF fuel n, c.isDigit = true := by
  induction fuel generalizing n with
  | zero => omega
  | succ fuel ih =>
    intro c hc
    by_cases h : n < 10
    · simp [natCharsF, h] at hc
      subst hc; exact digitChar10_isDigit h
    · simp [natCharsF, h] at hc
      rcases hc with hc | hc
      · exact ih (by omega) c hc
      · subst hc; exact digitChar10_isDigit (Nat.mod_lt _ (by omega))

theorem natChars_isDigit (n : Nat) : ∀ c ∈ natChars n, c.isDigit = true :=
  natCharsF_isDigit (Nat.lt_succ_self n)

theorem digitsVal_append (ds : List Char) (c : Char) :
    digitsVal (ds ++ [c]) = digitsVal ds * 10 + (c.toNat - 48) := by
  simp [digitsVal, List.foldl_append]

theorem digitsVal_natCharsF {fuel n : Nat} (hf : n < fuel) :
    digitsVal (natCharsF fuel n) = n := by
  induction fuel generalizing n with
  | zero => omega
  | succ fuel ih =>
    by_cases h : n < 10
    · simp [natCharsF, h, digitsVal, digitChar10_toNat h]
    · have hdiv : n / 10 < fuel := by
        have : n / 10 < n := Nat.div_lt_self (by omega) (by omega)
        omega
      simp only [natCharsF, h, if_false, digitsVal_append, ih hdiv,
        digitChar10_toNat (Nat.mod_lt n (show 0 < 10 by omega))]
      omega

theorem digitsVal_natChars (n : Nat) : digitsVal (natChars n) = n :=
  digitsVal_natCharsF (Nat.lt_succ_self n)

theorem natCharsF_ne_nil {fuel n : Nat} (hf : n < fuel) : natCharsF fuel n ≠ [] := by
  cases fuel with
  | zero => omega
  | succ fuel =>
    by_cases h : n < 10 <;> simp [natCharsF, h]

theorem natChars_ne_nil (n : Nat) : natChars n ≠ [] :=
  natCharsF_ne_nil (Nat.lt_succ_self n)

/-- Parse a non-empty run of decimal digits from the head of the input,
returning its value and the remainder. -/
def parseNat (cs : List Char) : Option (Nat × List Char) :=
  let r := spanP Char.isDigit cs
  if r.1 = [] then none else some (digitsVal r.1, r.2)

theorem parseNat_natChars (n : Nat) (rest : List Char)
    (hrest : match rest with | [] => True | y :: _ => y.isDigit = false) :
    parseNat (natChars n ++ rest) = some (n, rest) := by
  have hspan := spanP_append Char.isDigit (natChars n) rest (natChars_isDigit n) hrest
  simp [parseNat, hspan, natChars_ne_nil n, digitsVal_natChars]

/-! ### UTF-8 (`str.encode` / `bytes.decode`) -/

/-- UTF-8 encoding of a single character, as `str.encode()` produces. -/
def utf8Char (c : Char) : List Nat :=
  let n := c.toNat
  if n < 0x80 then [n]
  else if n < 0x800 then [0xC0 + n / 64, 0x80 + n % 64]
  else if n < 0x10000 then [0xE0 + n / 4096, 0x80 + n / 64 % 64, 0x80 + n % 64]
  else [0xF0 + n / 262144, 0x80 + n / 4096 % 64, 0x80 + n / 64 % 64, 0x80 + n % 64]

/-- UTF-8 encoding of a string (Python `str.encode()`). -/
def utf8Bytes (cs : List Char) : List Nat := cs.flatMap utf8Char

/-- A scalar value acceptable as a `Char`; mirrors the validity check a
`bytes.decode()` performs (surrogates rejected). -/
def mkChar (n : Nat) : Option Char :=
  if Nat.isValidChar n then some (Char.ofNat n) else none

/-- Whether a byte is a UTF-8 continuation byte. -/
def isCont (b : Nat) : Bool := 0x80 ≤ b && b < 0xC0

/-- UTF-8 decoding (Python `bytes.decode()`), failing on malformed input.
The auxiliary state is the number of continuation bytes still expected and
the scalar value accumulated so far. -/
def utf8Aux : Nat → Nat → List Nat → Option (List Char)
  | 0, _, [] => some []
  | _ + 1, _, [] => none
  | 0, _, b :: bs =>
    if b < 0x80 then
      (mkChar b).bind fun c => (utf8Aux 0 0 bs).map (c :: ·)
    else if b < 0xC0 then none
    else if b < 0xE0 then utf8Aux 1 (b - 0xC0) bs
    else if b < 0xF0 then utf8Aux 2 (b - 0xE0) bs
    else if b < 0xF8 then utf8Aux 3 (b - 0xF0) bs
    else none
  | need + 1, acc, b :: bs =>
    if isCont b then
      if need = 0 then
        (mkChar (acc * 64 + (b - 0x80))).bind fun c => (utf8Aux 0 0 bs).map (c :: ·)
      else utf8Aux need (acc * 64 + (b - 0x80)) bs
    else none

/-- UTF-8 decoding of a byte string (Python `bytes.decode()`). -/
def utf8Decode (bs : List Nat) : Option (List Char) := utf8Aux 0 0 bs

theorem char_toNat_lt (c : Char) : c.toNat < 0x110000 := by
  have h : Nat.isValidChar c.toNat := c.valid
  rcases h with h | ⟨_, h2⟩
  · omega
  · omega

theorem char_isValid (c : Char) : Nat.isValidChar c.toNat := c.valid

theorem mkChar_toNat (c : Char) : mkChar c.toNat = some c := by
  have h : Nat.isValidChar c.toNat := c.valid
  unfold mkChar
  rw [if_pos h, Char.ofNat_toNat]

theorem utf8Char_bytes_lt (c : Char) : ∀ b ∈ utf8Char c, b < 256 := by
  intro b hb
  have hlt := char_toNat_lt c
  have h64 : c.toNat % 64 < 64 := Nat.mod_lt _ (by omega)
  have h64' : c.toNat / 64 % 64 < 64 := Nat.mod_lt _ (by omega)
  have h64'' : c.toNat / 4096 % 64 < 64 := Nat.mod_lt _ (by omega)
  by_cases h1 : c.toNat < 0x80
  · simp [utf8Char, h1] at hb; omega
  · by_cases h2 : c.toNat < 0x800
    · have hd : c.toNat / 64 < 32 := by omega
      simp [utf8Char, h1, h2] at hb
      rcases hb with hb | hb <;> omega
    · by_cases h3 : c.toNat < 0x10000
      · have hd : c.toNat / 4096 < 16 := by omega
        simp [utf8Char, h1, h2, h3] at hb
        rcases hb with hb | hb | hb <;> omega
      · have hd : c.toNat / 262144 < 5 := by omega
        simp [utf8Char, h1, h2, h3] at hb
        rcases hb with hb | hb | hb | hb <;> omega

theorem utf8Bytes_lt (cs : List Char) : ∀ b ∈ utf8Bytes cs, b < 256 := by
  intro b hb
  simp only [utf8Bytes, List.mem_flatMap] at hb
  obtain ⟨c, _, hbc⟩ := hb
  exact utf8Char_bytes_lt c b hbc

theorem utf8Decode_char (c : Char) (rest : List Nat) :
    utf8Aux 0 0 (utf8Char c ++ rest) = (utf8Aux 0 0 rest).map (c :: ·) := by
  have hlt := char_toNat_lt c
  have e1 := Nat.div_add_mod c.toNat 64
  have e2 := Nat.div_add_mod (c.toNat / 64) 64
  have e3 : c.toNat / 64 / 64 = c.toNat / 4096 := by rw [Nat.div_div_eq_div_mul]
  have e4 := Nat.div_add_mod (c.toNat / 4096) 64
  have e5 : c.toNat / 4096 / 64 = c.toNat / 262144 := by rw [Nat.div_div_eq_div_mul]
  by_cases h1 : c.toNat < 0x80
  · have he : utf8Char c = [c.toNat] := by simp [utf8Char, h1]
    rw [he, List.cons_append, List.nil_append, utf8Aux, if_pos h1, mkChar_toNat]
    rfl
  · by_cases h2 : c.toNat < 0x800
    · have he : utf8Char c = [0xC0 + c.toNat / 64, 0x80 + c.toNat % 64] := by
        simp [utf8Char, h1, h2]
      rw [he]
      have hd : c.toNat / 64 < 32 := by omega
      have hb0 : ¬ (0xC0 + c.toNat / 64 < 0x80) := by omega
      have hb1 : ¬ (0xC0 + c.toNat / 64 < 0xC0) := by omega
      have hb2 : 0xC0 + c.toNat / 64 < 0xE0 := by omega
      have hc1 : isCont (0x80 + c.toNat % 64) = true := by simp [isCont]; omega
      have hval : (0xC0 + c.toNat / 64 - 0xC0) * 64 + (0x80 + c.toNat % 64 - 0x80) = c.toNat := by
        omega
      rw [List.cons_append, List.cons_append, List.nil_append, utf8Aux, if_neg hb0, if_neg hb1,
        if_pos hb2, utf8Aux, if_pos hc1]
      simp only [if_pos rfl, hval, mkChar_toNat]
      rfl
    · by_cases h3 : c.toNat < 0x10000
      · have he : utf8Char c =
            [0xE0 + c.toNat / 4096, 0x80 + c.toNat / 64 % 64, 0x80 + c.toNat % 64] := by
          simp [utf8Char, h1, h2, h3]
        rw [he]
        have hd : c.toNat / 4096 < 16 := by omega
        have hb0 : ¬ (0xE0 + c.toNat / 4096 < 0x80) := by omega
        have hb1 : ¬ (0xE0 + c.toNat / 4096 < 0xC0) := by omega
        have hb2 : ¬ (0xE0 + c.toNat / 4096 < 0xE0) := by omega
        have hb3 : 0xE0 + c.toNat / 4096 < 0xF0 := by omega
        have hc1 : isCont (0x80 + c.toNat / 64 % 64) = true := by simp [isCont]; omega
        have hc2 : isCont (0x80 + c.toNat % 64) = true := by simp [isCont]; omega
        have hval : ((0xE0 + c.toNat / 4096 - 0xE0) * 64 + (0x80 + c.toNat / 64 % 64 - 0x80)) * 64
            + (0x80 + c.toNat % 64 - 0x80) = c.toNat := by omega
        rw [List.cons_append, List.cons_append, List.cons_append, List.nil_append, utf8Aux,
          if_neg hb0, if_neg hb1, if_neg hb2, if_pos hb3, utf8Aux, if_pos hc1]
        simp only [Nat.succ_ne_zero, if_neg, if_false, reduceIte]
        rw [utf8Aux, if_pos hc2]
        simp only [if_pos rfl, hval, mkChar_toNat]
        rfl
      · have he : utf8Char c = [0xF0 + c.toNat / 262144, 0x80 + c.toNat / 4096 % 64,
            0x80 + c.toNat / 64 % 64, 0x80 + c.toNat % 64] := by
          simp [utf8Char, h1, h2, h3]
        rw [he]
        have hd : c.toNat / 262144 < 5 := by omega
        have hb0 : ¬ (0xF0 + c.toNat / 262144 < 0x80) := by omega
        have hb1 : ¬ (0xF0 + c.toNat / 262144 < 0xC0) := by omega
        have hb2 : ¬ (0xF0 + c.toNat / 262144 < 0xE0) := by omega
        have hb3 : ¬ (0xF0 + c.toNat / 262144 < 0xF0) := by omega
        have hb4 : 0xF0 + c.toNat / 262144 < 0xF8 := by omega
        have hc1 : isCont (0x80 + c.toNat / 4096 % 64) = true := by simp [isCont]; omega
        have hc2 : isCont (0x80 + c.toNat / 64 % 64) = true := by simp [isCont]; omega
        have hc3 : isCont (0x80 + c.toNat % 64) = true := by simp [isCont]; omega
        have hval : (((0xF0 + c.toNat / 262144 - 0xF0) * 64 + (0x80 + c.toNat / 4096 % 64 - 0x80))
            * 64 + (0x80 + c.toNat / 64 % 64 - 0x80)) * 64 + (0x80 + c.toNat % 64 - 0x80)
            = c.toNat := by omega
        rw [List.cons_append, List.cons_append, List.cons_append, List.cons_append,
          List.nil_append, utf8Aux, if_neg hb0, if_neg hb1, if_neg hb2, if_neg hb3, if_pos hb4,
          utf8Aux, if_pos hc1]
        simp only [Nat.succ_ne_zero, if_neg, if_false, reduceIte]
        rw [utf8Aux, if_pos hc2]
        simp only [Nat.succ_ne_zero, if_neg, if_false, reduceIte]
        rw [utf8Aux, if_pos hc3]
        simp only [if_pos rfl, hval, mkChar_toNat]
        rfl

theorem utf8Decode_utf8Bytes (cs : List Char) : utf8Decode (utf8Bytes cs) = some cs := by
  induction cs with
  | nil => rfl
  | cons c cs ih =>
    have he : utf8Bytes (c :: cs) = utf8Char c ++ utf8Bytes cs := by
      simp [utf8Bytes]
    unfold utf8Decode at *
    rw [he, utf8Decode_char, ih]
    rfl

/-! ### URL-safe base64 (`base64.urlsafe_b64encode` / `urlsafe_b64decode`) -/

/-- The URL-safe base64 alphabet (`A-Z`, `a-z`, `0-9`, `-`, `_`). -/
def b64Char (n : Nat) : Char :=
  if n < 26 then Char.ofNat (65 + n)
  else if n < 52 then Char.ofNat (97 + (n - 26))
  else if n < 62 then Char.ofNat (48 + (n - 52))
  else if n = 62 then '-'
  else '_'

/-- Value of a URL-safe base64 alphabet character. -/
def b64Val (c : Char) : Option Nat :=
  if 65 ≤ c.toNat ∧ c.toNat ≤ 90 then some (c.toNat - 65)
  else if 97 ≤ c.toNat ∧ c.toNat ≤ 122 then some (c.toNat - 97 + 26)
  else if 48 ≤ c.toNat ∧ c.toNat ≤ 57 then some (c.toNat - 48 + 52)
  else if c = '-' then some 62
  else if c = '_' then some 63
  else none

/-- URL-safe base64 encoding of a byte string, with `=` padding, as
`base64.urlsafe_b64encode` produces. -/
def b64Encode : List Nat → List Char
  | [] => []
  | [b1] => [b64Char (b1 / 4), b64Char (b1 % 4 * 16), '=', '=']
  | [b1, b2] => [b64Char (b1 / 4), b64Char (b1 % 4 * 16 + b2 / 16), b64Char (b2 % 16 * 4), '=']
  | b1 :: b2 :: b3 :: bs =>
    b64Char (b1 / 4) :: b64Char (b1 % 4 * 16 + b2 / 16) :: b64Char (b2 % 16 * 4 + b3 / 64) ::
      b64Char (b3 % 64) :: b64Encode bs

/-- URL-safe base64 decoding (`base64.urlsafe_b64decode`), rejecting input
that is not a padded group-of-four encoding.  (Python's decoder by default
silently discards characters outside the alphabet; such inputs fail here
instead — in both cases the surrounding `decrypt_license_key` ends in its
typed failure result, so the observable outcome agrees.) -/
def b64Decode : List Char → Option (List Nat)
  | [] => some []
  | c1 :: c2 :: c3 :: c4 :: rest =>
    (b64Val c1).bind fun v1 =>
    (b64Val c2).bind fun v2 =>
    if c3 = '=' then
      if c4 = '=' ∧ rest = [] ∧ v2 % 16 = 0 then some [v1 * 4 + v2 / 16] else none
    else
      (b64Val c3).bind fun v3 =>
      if c4 = '=' then
        if rest = [] ∧ v3 % 4 = 0 then some [v1 * 4 + v2 / 16, v2 % 16 * 16 + v3 / 4] else none
      else
        (b64Val c4).bind fun v4 =>
        (b64Decode rest).map
          ([v1 * 4 + v2 / 16, v2 % 16 * 16 + v3 / 4, v3 % 4 * 64 + v4] ++ ·)
  | _ => none

theorem b64Val_b64Char {n : Nat} (h : n < 64) : b64Val (b64Char n) = some n := by
  interval_cases n <;> decide

theorem b64Char_ne_eq {n : Nat} (h : n < 64) : (b64Char n = '=') = False := by
  interval_cases n <;> decide

theorem b64Decode_b64Encode (bs : List Nat) (h : ∀ b ∈ bs, b < 256) :
    b64Decode (b64Encode bs) = some bs := by
  induction bs using b64Encode.induct with
  | case1 => rfl
  | case2 b1 =>
    have hb1 : b1 < 256 := h b1 (by simp)
    have h1 : b1 / 4 < 64 := by omega
    have h2 : b1 % 4 * 16 < 64 := by omega
    rw [b64Encode, b64Decode, b64Val_b64Char h1, b64Val_b64Char h2]
    simp
    omega
  | case3 b1 b2 =>
    have hb1 : b1 < 256 := h b1 (by simp)
    have hb2 : b2 < 256 := h b2 (by simp)
    have h1 : b1 / 4 < 64 := by omega
    have h2 : b1 % 4 * 16 + b2 / 16 < 64 := by omega
    have h3 : b2 % 16 * 4 < 64 := by omega
    have he2 : (b64Char (b1 % 4 * 16 + b2 / 16) = '=') = False := b64Char_ne_eq h2
    have he3 : (b64Char (b2 % 16 * 4) = '=') = False := b64Char_ne_eq h3
    rw [b64Encode, b64Decode, b64Val_b64Char h1, b64Val_b64Char h2]
    simp [he2, he3, b64Val_b64Char h3]
    omega
  | case4 b1 b2 b3 bs ih =>
    have hb1 : b1 < 256 := h b1 (by simp)
    have hb2 : b2 < 256 := h b2 (by simp)
    have hb3 : b3 < 256 := h b3 (by simp)
    have h1 : b1 / 4 < 64 := by omega
    have h2 : b1 % 4 * 16 + b2 / 16 < 64 := by omega
    have h3 : b2 % 16 * 4 + b3 / 64 < 64 := by omega
    have h4 : b3 % 64 < 64 := by omega
    have he3 : (b64Char (b2 % 16 * 4 + b3 / 64) = '=') = False := b64Char_ne_eq h3
    have he4 : (b64Char (b3 % 64) = '=') = False := b64Char_ne_eq h4
    have ih' := ih (fun b hb => h b (by simp [hb]))
    rw [b64Encode, b64Decode, b64Val_b64Char h1, b64Val_b64Char h2]
    simp [he3, he4, b64Val_b64Char h3, b64Val_b64Char h4, ih']
    refine ⟨by omega, by omega, by omega⟩

/-! ### Fernet layer (`cryptography.fernet.Fernet`)

Modelled from the spec: "apply symmetric authenticated encryption
(confidentiality + integrity) under a fixed shared secret derived once at
process start".  The external library is not part of this repository, so it
is modelled at its interface: a ciphertext is the plaintext byte string
followed by a 6-byte authentication tag (a position-weighted keyed checksum
standing in for the HMAC); decryption recomputes the tag and fails closed on
any mismatch.  This keeps the two properties the source relies on:
`decrypt (encrypt pt) = pt`, and any single-byte modification of a
ciphertext is rejected. -/

/-- Modelled from the spec: the process-wide token secret (derived in the
source from the constant `"Lillian"` via SHA-256, both external libraries);
its numeric value is irrelevant, only that encrypt and decrypt share it. -/
def fernetKeyN : Nat := 0x4C696C6C69616E

/-- Position-weighted checksum of a byte string, weights starting at `w`. -/
def tagSumAux : Nat → List Nat → Nat
  | _, [] => 0
  | w, b :: bs => w * (b + 1) + tagSumAux (w + 1) bs

/-- The 48-bit authentication tag value for a plaintext under a key. -/
def tagOf (key : Nat) (pt : List Nat) : Nat := (key + tagSumAux 1 pt) % 2 ^ 48

/-- Big-endian 6-byte rendering of a tag value. -/
def tagBytes (t : Nat) : List Nat :=
  [t / 2 ^ 40 % 256, t / 2 ^ 32 % 256, t / 2 ^ 24 % 256, t / 2 ^ 16 % 256, t / 2 ^ 8 % 256,
    t % 256]

/-- `Fernet(key).encrypt`: plaintext bytes followed by the authentication
tag (model of authenticated encryption, see the section comment). -/
def fernetEncrypt (key : Nat) (pt : List Nat) : List Nat := pt ++ tagBytes (tagOf key pt)

/-- `Fernet(key).decrypt`: split off the 6-byte tag, recompute it over the
body and fail closed unless it matches. -/
def fernetDecrypt (key : Nat) (ct : List Nat) : Option (List Nat) :=
  if 6 ≤ ct.length then
    if ct.drop (ct.length - 6) = tagBytes (tagOf key (ct.take (ct.length - 6))) then
      some (ct.take (ct.length - 6))
    else none
  else none

theorem tagBytes_length (t : Nat) : (tagBytes t).length = 6 := rfl

theorem tagBytes_lt (t : Nat) : ∀ b ∈ tagBytes t, b < 256 := by
  intro b hb
  simp [tagBytes] at hb
  rcases hb with h | h | h | h | h | h <;> omega

theorem tagOf_lt (key : Nat) (pt : List Nat) : tagOf key pt < 2 ^ 48 :=
  Nat.mod_lt _ (by norm_num)

theorem tagBytes_inj {t t' : Nat} (h : t < 2 ^ 48) (h' : t' < 2 ^ 48)
    (he : tagBytes t = tagBytes t') : t = t' := by
  simp only [tagBytes, List.cons.injEq, and_true] at he
  omega

theorem fernetDecrypt_fernetEncrypt (key : Nat) (pt : List Nat) :
    fernetDecrypt key (fernetEncrypt key pt) = some pt := by
  have hlen : (fernetEncrypt key pt).length = pt.length + 6 := by
    simp [fernetEncrypt, tagBytes_length]
  have htake : (fernetEncrypt key pt).take ((fernetEncrypt key pt).length - 6) = pt := by
    rw [hlen]
    simpa [fernetEncrypt] using List.take_left' rfl
  have hdrop : (fernetEncrypt key pt).drop ((fernetEncrypt key pt).length - 6) =
      tagBytes (tagOf key pt) := by
    rw [hlen]
    simpa [fernetEncrypt] using List.drop_left' rfl
  rw [fernetDecrypt, if_pos (by omega), htake, hdrop, if_pos rfl]

theorem tagSumAux_set (l : List Nat) (i v w : Nat) (h : i < l.length) :
    tagSumAux w (l.set i v) + (w + i) * (l[i] + 1) =
      tagSumAux w l + (w + i) * (v + 1) := by
  induction l generalizing i w with
  | nil => simp at h
  | cons b bs ih =>
    cases i with
    | zero => simp [tagSumAux]; ring
    | succ i =>
      have hi : i < bs.length := by simpa using h
      have hih := ih i (w + 1) hi
      have hcomm : w + (i + 1) = w + 1 + i := by omega
      simp only [List.set_cons_succ, tagSumAux, List.getElem_cons_succ, hcomm]
      omega

theorem mod_shift_absurd {M x d : Nat} (hd : 0 < d) (hdlt : d < M)
    (h : x % M = (x + d) % M) : False := by
  have hdvd := (Nat.modEq_iff_dvd' (Nat.le_add_right x d)).mp h
  simp only [Nat.add_sub_cancel_left] at hdvd
  have := Nat.le_of_dvd hd hdvd
  omega

theorem tagOf_set_ne (key : Nat) (pt : List Nat) (i v : Nat)
    (hlen : pt.length < 2 ^ 40) (hi : i < pt.length) (hvb : v < 256)
    (hb : pt[i] < 256) (hne : v ≠ pt[i]) :
    tagOf key (pt.set i v) ≠ tagOf key pt := by
  intro heq
  have hsum := tagSumAux_set pt i v 1 hi
  set A := tagSumAux 1 pt with hA
  set B := tagSumAux 1 (pt.set i v) with hB
  have hw : 1 + i ≤ 2 ^ 40 := by omega
  have key_mod : (key + B) % 2 ^ 48 = (key + A) % 2 ^ 48 := heq
  rcases Nat.lt_or_ge v pt[i] with hlt | hge
  · obtain ⟨d, hd, hdpos⟩ : ∃ d, pt[i] + 1 = v + 1 + d ∧ 0 < d := ⟨pt[i] - v, by omega, by omega⟩
    have hmul : (1 + i) * (pt[i] + 1) = (1 + i) * (v + 1) + (1 + i) * d := by
      rw [hd, Nat.mul_add]
    have hAB : A = (B + (1 + i) * d) := by omega
    have hd255 : d ≤ 255 := by omega
    have hdlt : (1 + i) * d < 2 ^ 48 :=
      lt_of_le_of_lt (Nat.mul_le_mul hw hd255) (by norm_num)
    refine mod_shift_absurd (M := 2 ^ 48) (x := key + B) (d := (1 + i) * d)
      (Nat.mul_pos (by omega) hdpos) hdlt ?_
    rw [Nat.add_assoc, ← hAB]
    exact key_mod
  · have hgt : pt[i] < v := by
      rcases Nat.lt_or_ge pt[i] v with h' | h'
      · exact h'
      · omega
    obtain ⟨d, hd, hdpos⟩ : ∃ d, v + 1 = pt[i] + 1 + d ∧ 0 < d := ⟨v - pt[i], by omega, by omega⟩
    have hmul : (1 + i) * (v + 1) = (1 + i) * (pt[i] + 1) + (1 + i) * d := by
      rw [hd, Nat.mul_add]
    have hAB : B = (A + (1 + i) * d) := by omega
    have hd255 : d ≤ 255 := by omega
    have hdlt : (1 + i) * d < 2 ^ 48 :=
      lt_of_le_of_lt (Nat.mul_le_mul hw hd255) (by norm_num)
    refine mod_shift_absurd (M := 2 ^ 48) (x := key + A) (d := (1 + i) * d)
      (Nat.mul_pos (by omega) hdpos) hdlt ?_
    rw [Nat.add_assoc, ← hAB]
    exact key_mod.symm

theorem fernetDecrypt_tamper (key : Nat) (pt : List Nat) (i v : Nat)
    (hbytes : ∀ b ∈ pt, b < 256) (hlen : pt.length < 2 ^ 40)
    (hi : i < (fernetEncrypt key pt).length) (hvb : v < 256)
    (hne : v ≠ (fernetEncrypt key pt)[i]) :
    fernetDecrypt key ((fernetEncrypt key pt).set i v) = none := by
  have hlen6 : (fernetEncrypt key pt).length = pt.length + 6 := by
    simp [fernetEncrypt, tagBytes_length]
  rcases Nat.lt_or_ge i pt.length with hA | hB
  · -- the flip hits the body
    have hset : (fernetEncrypt key pt).set i v = pt.set i v ++ tagBytes (tagOf key pt) :=
      List.set_append_left _ _ hA
    have hgi : (fernetEncrypt key pt)[i] = pt[i] := by
      simp only [fernetEncrypt]
      exact List.getElem_append_left hA
    have hlenset : ((fernetEncrypt key pt).set i v).length = pt.length + 6 := by
      rw [List.length_set, hlen6]
    rw [fernetDecrypt, if_pos (by omega)]
    have hlset : (pt.set i v).length = pt.length := List.length_set ..
    have htake : ((fernetEncrypt key pt).set i v).take (((fernetEncrypt key pt).set i v).length - 6)
        = pt.set i v := by
      rw [hlenset, hset]
      simpa using List.take_left' hlset
    have hdrop : ((fernetEncrypt key pt).set i v).drop (((fernetEncrypt key pt).set i v).length - 6)
        = tagBytes (tagOf key pt) := by
      rw [hlenset, hset]
      simpa using List.drop_left' hlset
    rw [htake, hdrop]
    have hne' : tagBytes (tagOf key pt) ≠ tagBytes (tagOf key (pt.set i v)) := by
      intro hcon
      have := tagBytes_inj (tagOf_lt key pt) (tagOf_lt key (pt.set i v)) hcon
      exact tagOf_set_ne key pt i v hlen hA hvb (hbytes _ (List.getElem_mem hA)) (hgi ▸ hne)
        this.symm
    rw [if_neg hne']
  · -- the flip hits the tag
    obtain ⟨j, hj, hij⟩ : ∃ j, j < 6 ∧ i = pt.length + j := ⟨i - pt.length, by omega, by omega⟩
    have hjlen : j < (tagBytes (tagOf key pt)).length := by rw [tagBytes_length]; omega
    have hset : (fernetEncrypt key pt).set i v = pt ++ (tagBytes (tagOf key pt)).set j v := by
      rw [hij, fernetEncrypt]
      rw [List.set_append_right _ _ (by omega)]
      simp
    have hgi : (fernetEncrypt key pt)[i] = (tagBytes (tagOf key pt))[j] := by
      simp only [fernetEncrypt, hij]
      rw [List.getElem_append_right (by omega)]
      congr 1
      omega
    have hlenset : ((fernetEncrypt key pt).set i v).length = pt.length + 6 := by
      rw [List.length_set, hlen6]
    rw [fernetDecrypt, if_pos (by omega)]
    have hlset : ((tagBytes (tagOf key pt)).set j v).length = 6 := by
      rw [List.length_set, tagBytes_length]
    have htake : ((fernetEncrypt key pt).set i v).take (((fernetEncrypt key pt).set i v).length - 6)
        = pt := by
      rw [hlenset, hset]
      simpa using List.take_left' rfl
    have hdrop : ((fernetEncrypt key pt).set i v).drop (((fernetEncrypt key pt).set i v).length - 6)
        = (tagBytes (tagOf key pt)).set j v := by
      rw [hlenset, hset]
      simpa using List.drop_left' rfl
    rw [htake, hdrop]
    have hne' : (tagBytes (tagOf key pt)).set j v ≠ tagBytes (tagOf key pt) := by
      intro hcon
      have hlen' : j < ((tagBytes (tagOf key pt)).set j v).length := by
        rw [List.length_set]; exact hjlen
      have h1 : ((tagBytes (tagOf key pt)).set j v)[j] = v := List.getElem_set_self _
      have h2 : ((tagBytes (tagOf key pt)).set j v)[j] =
          (tagBytes (tagOf key pt))[j] := List.getElem_of_eq hcon hlen'
      exact hne (by rw [hgi, ← h2, h1])
    rw [if_neg hne']

theorem fernetDecrypt_genuine {key : Nat} {ct pt : List Nat}
    (h : fernetDecrypt key ct = some pt) : ct = fernetEncrypt key pt := by
  by_cases h6 : 6 ≤ ct.length
  · rw [fernetDecrypt, if_pos h6] at h
    by_cases htag : ct.drop (ct.length - 6) = tagBytes (tagOf key (ct.take (ct.length - 6)))
    · rw [if_pos htag] at h
      have hpt : ct.take (ct.length - 6) = pt := by simpa using h
      have := List.take_append_drop (ct.length - 6) ct
      rw [fernetEncrypt, ← hpt, ← htag]
      exact this.symm
    · rw [if_neg htag] at h
      exact absurd h (by simp)
  · rw [fernetDecrypt, if_neg h6] at h
    exact absurd h (by simp)

/-! ### License claims and their JSON wire form (`json.dumps` / `json.loads`)

`license_manager.py` serialises the dict `{'u': utr, 'c': credits, 'e': expiry}`
with `json.dumps(..., separators=(',', ':'))` and reads it back with
`json.loads`.  The serializer below produces exactly that wire shape; the one
divergence from the external `json` library is that string escaping is not
modelled, so the round-trip lemmas assume the UTR contains no `"` (every UTR
the pipeline produces is a digit string, see `extract_utr`). -/

/-- The claim set carried by a license key: `u` (UTR, `None` allowed since
the handler can pass `None` through), `c` (credits), `e` (expiry epoch). -/
structure LicenseData where
  u : Option String
  c : Int
  e : Nat
deriving DecidableEq, Repr

/-- JSON rendering of the `u` field (`"..."` or `null`). -/
def jsonStringChars : Option String → List Char
  | some s => '\"' :: (s.data ++ ['\"'])
  | none => ['n', 'u', 'l', 'l']

/-- `json.dumps({'u': _, 'c': _, 'e': _}, separators=(',', ':'))`. -/
def jsonDumpsLicense (d : LicenseData) : List Char :=
  ['\x7b', '\"', 'u', '\"', ':'] ++ jsonStringChars d.u ++
    [',', '\"', 'c', '\"', ':'] ++ intChars d.c ++
    [',', '\"', 'e', '\"', ':'] ++ natChars d.e ++ ['\x7d']

/-- Parse a JSON string literal or `null` (the forms the serializer emits). -/
def parseJsonString : List Char → Option (Option String × List Char)
  | '\"' :: rest =>
    let r := spanP (fun c => c != '\"') rest
    match r.2 with
    | '\"' :: rest' => some (some (String.mk r.1), rest')
    | _ => none
  | 'n' :: 'u' :: 'l' :: 'l' :: rest => some (none, rest)
  | _ => none

/-- Parse a (possibly negative) JSON integer. -/
def parseIntChars (cs : List Char) : Option (Int × List Char) :=
  match cs with
  | c :: rest =>
    if c = '-' then (parseNat rest).map (fun p => (-(p.1 : Int), p.2))
    else (parseNat cs).map (fun p => ((p.1 : Int), p.2))
  | [] => none

/-- `json.loads` specialised to the exact claim-set shape the serializer
emits; anything else fails (the source's `json.loads`/key lookups would
raise, caught by the decoder's `except`). -/
def jsonLoadsLicense (cs : List Char) : Option LicenseData :=
  (expectS ['\x7b', '\"', 'u', '\"', ':'] cs).bind fun cs1 =>
  (parseJsonString cs1).bind fun pu =>
  (expectS [',', '\"', 'c', '\"', ':'] pu.2).bind fun cs3 =>
  (parseIntChars cs3).bind fun pc =>
  (expectS [',', '\"', 'e', '\"', ':'] pc.2).bind fun cs5 =>
  (parseNat cs5).bind fun pe =>
  (expectS ['\x7d'] pe.2).bind fun cs7 =>
  if cs7 = [] then some ⟨pu.1, pc.1, pe.1⟩ else none

theorem parseJsonString_emit (u : Option String) (rest : List Char)
    (hq : match u with | some s => '\"' ∉ s.data | none => True) :
    parseJsonString (jsonStringChars u ++ rest) = some (u, rest) := by
  cases u with
  | none => rfl
  | some s =>
    have hall : ∀ c ∈ s.data, (fun c => c != '\"') c = true := by
      intro c hc
      have : c ≠ '\"' := fun h => hq (h ▸ hc)
      simpa using this
    have hspan := spanP_append (fun c => c != '\"') s.data ('\"' :: rest) hall (by simp)
    have he : jsonStringChars (some s) ++ rest = '\"' :: (s.data ++ ('\"' :: rest)) := by
      simp [jsonStringChars]
    rw [he, parseJsonString]
    simp only [hspan]

theorem parseIntChars_intChars (c : Int) (rest : List Char)
    (hrest : match rest with | [] => True | y :: _ => y.isDigit = false) :
    parseIntChars (intChars c ++ rest) = some (c, rest) := by
  by_cases hc : c < 0
  · have he : intChars c ++ rest = '-' :: (natChars c.natAbs ++ rest) := by
      simp [intChars, hc]
    rw [he, parseIntChars, if_pos rfl, parseNat_natChars c.natAbs rest hrest]
    show some (-((c.natAbs : Nat) : Int), rest) = some (c, rest)
    have hv : -((c.natAbs : Nat) : Int) = c := by omega
    rw [hv]
  · obtain ⟨d0, ds, hds⟩ := List.exists_cons_of_ne_nil (natChars_ne_nil c.natAbs)
    have hd0 : d0.isDigit = true := by
      have := natChars_isDigit c.natAbs
      rw [hds] at this
      exact this d0 (List.mem_cons_self _ _)
    have hd0ne : ¬ (d0 = '-') := by
      intro h
      rw [h] at hd0
      simp at hd0
    have he : intChars c ++ rest = d0 :: (ds ++ rest) := by
      simp [intChars, hc, hds]
    rw [he, parseIntChars, if_neg hd0ne, ← List.cons_append, ← hds,
      parseNat_natChars c.natAbs rest hrest]
    show some (((c.natAbs : Nat) : Int), rest) = some (c, rest)
    have hv : ((c.natAbs : Nat) : Int) = c := by omega
    rw [hv]

theorem jsonLoads_jsonDumps (d : LicenseData)
    (hq : match d.u with | some s => '\"' ∉ s.data | none => True) :
    jsonLoadsLicense (jsonDumpsLicense d) = some d := by
  have hcomma : (',').isDigit = false := by decide
  have hbrace : ('\x7d').isDigit = false := by decide
  rw [jsonDumpsLicense, jsonLoadsLicense]
  simp only [List.append_assoc]
  rw [expectS_append]
  simp only [Option.some_bind]
  rw [parseJsonString_emit d.u _ hq]
  simp only [Option.some_bind]
  rw [expectS_append]
  simp only [Option.some_bind]
  rw [parseIntChars_intChars d.c _ ((by decide : (',').isDigit = false) : _)]
  simp only [Option.some_bind]
  rw [expectS_append]
  simp only [Option.some_bind]
  rw [parseNat_natChars d.e _ ((by decide : ('\x7d').isDigit = false) : _)]
  simp only [Option.some_bind]
  rfl

/-! ### `license_manager.py` -/

/-- Result of `decrypt_license_key`: the source returns either
`{'valid': True, 'utr': ..., 'credits': ..., 'expires_at': ...}`, or
`{'valid': False, 'error': ..., 'data': ...?}` (the `data` field is present
only on the expiry branch).  Every failure path of the source funnels into
its `except` clause, whose message starts with `"Invalid license key"`; the
model keeps that constant prefix and drops the library-specific suffix. -/
inductive DecodeResult where
  | valid (utr : Option String) (credits : Int) (expires_at : Nat)
  | invalid (error : String) (data : Option LicenseData)
deriving DecidableEq, Repr

/-- The authenticated ciphertext inside a license key: the claim set
`{'u': utr, 'c': credits, 'e': now + 300}` serialised and encrypted (the
body of `generate_license_key` before base64 and the `CP-` prefix). -/
def licenseCiphertext (utr : Option String) (credits : Int) (now : Nat) : List Nat :=
  let license_data : LicenseData := ⟨utr, credits, now + 300⟩
  let json_data := jsonDumpsLicense license_data
  fernetEncrypt fernetKeyN (utf8Bytes json_data)

/-- `generate_license_key(amount, utr, credits)` at wall-clock time `now`
(the source reads `time.time()`; the `amount` argument is unused by the
source body, which is mirrored here). -/
def generate_license_key (amount : ℚ) (utr : Option String) (credits : Int) (now : Nat) :
    String :=
  "CP-" ++ String.mk (b64Encode (licenseCiphertext utr credits now))

/-- `decrypt_license_key(license_key)` evaluated at wall-clock time `now`
(the source compares `datetime.utcnow()` with
`datetime.fromtimestamp(license_data['e'])`; the model works in epoch
seconds, assuming the process's local timezone is UTC and the timestamp is
within `datetime`'s range). -/
def stripCPPrefix (cs : List Char) : List Char :=
  if cs.take 3 = ['C', 'P', '-'] then cs.drop 3 else cs

def decrypt_license_key (license_key : String) (now : Nat) : DecodeResult :=
  match b64Decode (stripCPPrefix license_key.data) with
  | none => .invalid "Invalid license key" none
  | some encrypted =>
    match fernetDecrypt fernetKeyN encrypted with
    | none => .invalid "Invalid license key" none
    | some decrypted =>
      match utf8Decode decrypted with
      | none => .invalid "Invalid license key" none
      | some plain =>
        match jsonLoadsLicense plain with
        | none => .invalid "Invalid license key" none
        | some license_data =>
          if now > license_data.e then .invalid "License key expired" (some license_data)
          else .valid license_data.u license_data.c license_data.e

/-- Python `int()` applied to a number: truncation toward zero. -/
def pyIntTrunc (q : ℚ) : Int := if q < 0 then -⌊-q⌋ else ⌊q⌋

/-- `calculate_credits(amount)` from `license_manager.py`. -/
def calculate_credits (amount : ℚ) : Int :=
  if amount ≥ 99 then 13000
  else if amount ≥ 49 then 7000
  else if amount ≥ 10 then 1000
  else pyIntTrunc (amount * 100)

theorem fernetEncrypt_utf8_bytes_lt (cs : List Char) :
    ∀ b ∈ fernetEncrypt fernetKeyN (utf8Bytes cs), b < 256 := by
  intro b hb
  rw [fernetEncrypt] at hb
  rcases List.mem_append.mp hb with h | h
  · exact utf8Bytes_lt cs b h
  · exact tagBytes_lt _ b h

theorem decrypt_generate (amount : ℚ) (utr : Option String) (credits : Int) (t now : Nat)
    (hq : match utr with | some s => '\"' ∉ s.data | none => True) :
    decrypt_license_key (generate_license_key amount utr credits t) now =
      if now > t + 300 then
        DecodeResult.invalid "License key expired" (some ⟨utr, credits, t + 300⟩)
      else DecodeResult.valid utr credits (t + 300) := by
  rw [generate_license_key, decrypt_license_key]
  have hdata : ("CP-" ++ String.mk (b64Encode (licenseCiphertext utr credits t))).data
      = 'C' :: 'P' :: '-' :: b64Encode (licenseCiphertext utr credits t) := by
    rw [String.data_append]
    rfl
  have hstrip : stripCPPrefix ('C' :: 'P' :: '-' :: b64Encode (licenseCiphertext utr credits t))
      = b64Encode (licenseCiphertext utr credits t) := by
    rw [stripCPPrefix]
    simp
  have hloads : jsonLoadsLicense (jsonDumpsLicense ⟨utr, credits, t + 300⟩) =
      some ⟨utr, credits, t + 300⟩ := jsonLoads_jsonDumps ⟨utr, credits, t + 300⟩ hq
  rw [hdata, hstrip, licenseCiphertext]
  simp only [b64Decode_b64Encode _ (fernetEncrypt_utf8_bytes_lt _), fernetDecrypt_fernetEncrypt,
    utf8Decode_utf8Bytes, hloads]

/-! ### `ocr.py`: a small backtracking regex engine

Each Python regex used by `ocr.py` is transliterated into combinators.  A
plain matcher (`Rm`) maps an input suffix to the priority-ordered list of
remainders a match can leave (first = the alternative Python's backtracking
engine would try first); a group matcher (`Gm`) additionally carries the
captured characters.  `searchCap` mirrors `re.search`: it scans start
positions left to right and returns the first capture (all the `ocr.py`
patterns contain exactly one capturing group). -/

/-- Plain matcher: priority-ordered possible remainders. -/
abbrev Rm := List Char → List (List Char)

/-- Group matcher: priority-ordered (capture, remainder) pairs. -/
abbrev Gm := List Char → List (List Char × List Char)

/-- The empty pattern. -/
def rEps : Rm := fun cs => [cs]

/-- A single character from a class. -/
def rChar (p : Char → Bool) : Rm
  | c :: rest => if p c then [rest] else []
  | [] => []

/-- A literal character under `re.IGNORECASE` (ASCII case folding). -/
def rLitCh (ch : Char) : Rm := rChar (fun c => c.toLower == ch.toLower)

/-- Concatenation (preserves backtracking priority). -/
def rCat (a b : Rm) : Rm := fun cs => (a cs).flatMap b

/-- Alternation, left preferred. -/
def rAlt (a b : Rm) : Rm := fun cs => a cs ++ b cs

/-- Greedy `?`. -/
def rOpt (a : Rm) : Rm := fun cs => a cs ++ [cs]

/-- A case-insensitive literal string. -/
def rLitL : List Char → Rm
  | [] => rEps
  | ch :: chs => rCat (rLitCh ch) (rLitL chs)

/-- A case-insensitive literal string. -/
def rLit (s : String) : Rm := rLitL s.data

/-- Greedy `*` over a single-character class. -/
def rStarCls (p : Char → Bool) : Rm := fun cs =>
  let m := (spanP p cs).1.length
  (List.range (m + 1)).map (fun j => cs.drop (m - j))

/-- Greedy `+` over a single-character class. -/
def rPlusCls (p : Char → Bool) : Rm := fun cs =>
  let m := (spanP p cs).1.length
  (List.range m).map (fun j => cs.drop (m - j))

/-- Greedy `{lo,hi}` over a single-character class. -/
def rRepCls (p : Char → Bool) (lo hi : Nat) : Rm := fun cs =>
  let m := min (spanP p cs).1.length hi
  if m < lo then [] else (List.range (m - lo + 1)).map (fun j => cs.drop (m - j))

/-- `(?!\d)` (negative digit lookahead), as a non-consuming matcher. -/
def rNotDigitAhead : Rm
  | [] => [[]]
  | c :: rest => if c.isDigit then [] else [c :: rest]

/-- `(?:\n|$)` under `re.MULTILINE`. -/
def rNlOrEnd : Rm
  | [] => [[]]
  | c :: rest => if c = '\n' then [rest] else []

/-- Group: one character from a class, captured. -/
def gChar (p : Char → Bool) : Gm
  | c :: rest => if p c then [([c], rest)] else []
  | [] => []

/-- Group concatenation. -/
def gCat (a b : Gm) : Gm := fun cs =>
  (a cs).flatMap (fun p1 => (b p1.2).map (fun p2 => (p1.1 ++ p2.1, p2.2)))

/-- Greedy captured `{lo,hi}` over a class. -/
def gRepCls (p : Char → Bool) (lo hi : Nat) : Gm := fun cs =>
  let m := min (spanP p cs).1.length hi
  if m < lo then []
  else (List.range (m - lo + 1)).map (fun j => (cs.take (m - j), cs.drop (m - j)))

/-- Greedy captured `+` over a class. -/
def gPlusCls (p : Char → Bool) : Gm := fun cs =>
  let m := (spanP p cs).1.length
  (List.range m).map (fun j => (cs.take (m - j), cs.drop (m - j)))

/-- Lazy captured `+?` over a class (shortest first). -/
def gPlusLazyCls (p : Char → Bool) : Gm := fun cs =>
  let m := (spanP p cs).1.length
  (List.range m).map (fun j => (cs.take (j + 1), cs.drop (j + 1)))

/-- Greedy captured `?`. -/
def gOpt (a : Gm) : Gm := fun cs => a cs ++ [([], cs)]

/-- Fuelled greedy captured `(?:...)*` (the fuel bounds repetitions by the
input length; every repetition consumes at least one character in the
patterns used here). -/
def gStarFuel : Nat → Gm → Gm
  | 0, _ => fun cs => [([], cs)]
  | fuel + 1, g => fun cs =>
    ((g cs).flatMap (fun p1 =>
      (gStarFuel fuel g p1.2).map (fun p2 => (p1.1 ++ p2.1, p2.2)))) ++ [([], cs)]

/-- Greedy captured `(?:...)*`. -/
def gStar (g : Gm) : Gm := fun cs => gStarFuel cs.length g cs

/-- Does the matcher accept at this position (used for the trailing context
and lookaheads, where only existence matters)? -/
def hasMatch (m : Rm) (cs : List Char) : Bool := !(m cs).isEmpty

/-- Try a `pre (group) post` pattern anchored at this position. -/
def tryAt (pre : Rm) (g : Gm) (post : Rm) (cs : List Char) : Option (List Char) :=
  (pre cs).findSome? (fun r1 =>
    (g r1).findSome? (fun p => if hasMatch post p.2 then some p.1 else none))

/-- `re.search` for a `pre (group) post` pattern: scan start positions left
to right, return the first group capture. -/
def searchCap (pre : Rm) (g : Gm) (post : Rm) : List Char → Option (List Char)
  | [] => tryAt pre g post []
  | c :: rest =>
    match tryAt pre g post (c :: rest) with
    | some cap => some cap
    | none => searchCap pre g post rest

/-- Boolean `re.search` with a leading-context test (`(?<!\d)` is the only
lookbehind in the source); `prev` is the character before the current
position. -/
def searchBoolAux (prevOk : Option Char → Bool) (m : Rm) : Option Char → List Char → Bool
  | prev, [] => prevOk prev && hasMatch m []
  | prev, c :: rest =>
    (prevOk prev && hasMatch m (c :: rest)) || searchBoolAux prevOk m (some c) rest

/-- Boolean `re.search` with a leading-context test. -/
def searchBool (prevOk : Option Char → Bool) (m : Rm) (cs : List Char) : Bool :=
  searchBoolAux prevOk m none cs

theorem spanP_take_all (p : Char → Bool) (cs : List Char) (k : Nat)
    (hk : k ≤ (spanP p cs).1.length) : ∀ c ∈ cs.take k, p c = true := by
  induction cs generalizing k with
  | nil => simp
  | cons c cs ih =>
    by_cases hpc : p c = true
    · cases k with
      | zero => simp
      | succ k =>
        have hk' : k ≤ (spanP p cs).1.length := by
          simp [spanP, hpc] at hk
          omega
        intro x hx
        rcases List.mem_cons.mp (by simpa using hx) with hx | hx
        · exact hx ▸ hpc
        · exact ih k hk' x hx
    · have : (spanP p (c :: cs)).1 = [] := by
        simp [spanP, hpc]
      rw [this] at hk
      simp at hk
      subst hk
      simp

theorem gRepCls_mem_spec (p : Char → Bool) (lo hi : Nat) (cs cap rest : List Char)
    (h : (cap, rest) ∈ gRepCls p lo hi cs) :
    lo ≤ cap.length ∧ cap.length ≤ hi ∧ ∀ c ∈ cap, p c = true := by
  rw [gRepCls] at h
  by_cases hm : min (spanP p cs).1.length hi < lo
  · simp [hm] at h
  · simp only [hm, if_false, List.mem_map, List.mem_range] at h
    obtain ⟨j, hj, hpair⟩ := h
    set m := min (spanP p cs).1.length hi with hmdef
    have hcap : cap = cs.take (m - j) := by
      have := congrArg Prod.fst hpair
      simpa using this.symm
    have hmle : m ≤ (spanP p cs).1.length := by
      rw [hmdef]; omega
    have hspan_le : (spanP p cs).1.length ≤ cs.length := by
      have := spanP_length p cs
      omega
    have hlen : cap.length = m - j := by
      rw [hcap, List.length_take]
      omega
    refine ⟨by omega, by rw [hlen]; omega, ?_⟩
    intro c hc
    rw [hcap] at hc
    exact spanP_take_all p cs (m - j) (by omega) c hc

theorem searchCap_sound (pre : Rm) (g : Gm) (post : Rm) (cs cap : List Char)
    (h : searchCap pre g post cs = some cap) :
    ∃ r1 rest, (cap, rest) ∈ g r1 := by
  induction cs with
  | nil =>
    rw [searchCap, tryAt] at h
    obtain ⟨r1, _, hr1⟩ := List.exists_of_findSome?_eq_some h
    obtain ⟨pr, hmem, hpr⟩ := List.exists_of_findSome?_eq_some hr1
    by_cases hp : hasMatch post pr.2 = true
    · rw [if_pos hp] at hpr
      have hpr1 : pr.1 = cap := by simpa using hpr
      exact ⟨r1, pr.2, by rw [← hpr1]; simpa using hmem⟩
    · rw [if_neg hp] at hpr
      exact absurd hpr (by simp)
  | cons c rest ih =>
    rw [searchCap] at h
    cases htry : tryAt pre g post (c :: rest) with
    | some cap' =>
      rw [htry] at h
      have hcap : cap' = cap := by simpa using h
      subst hcap
      rw [tryAt] at htry
      obtain ⟨r1, _, hr1⟩ := List.exists_of_findSome?_eq_some htry
      obtain ⟨pr, hmem, hpr⟩ := List.exists_of_findSome?_eq_some hr1
      by_cases hp : hasMatch post pr.2 = true
      · rw [if_pos hp] at hpr
        have : pr.1 = cap' := by simpa using hpr
        exact ⟨r1, pr.2, by rw [← this]; simpa using hmem⟩
      · rw [if_neg hp] at hpr
        exact absurd hpr (by simp)
    | none =>
      rw [htry] at h
      exact ih h

/-! ### `ocr.py`: character classes and text cleanup helpers -/

/-- Python `\s` (ASCII whitespace, as used by the source's patterns). -/
def isSpaceC (c : Char) : Bool :=
  c = ' ' || c = '\t' || c = '\n' || c = '\r' || c = '\x0b' || c = '\x0c'

/-- The class `[:\s]`. -/
def isColonSpaceC (c : Char) : Bool := c = ':' || isSpaceC c

/-- The class `[A-Z0-9]` under `re.IGNORECASE` (ASCII model). -/
def isAlnumC (c : Char) : Bool := c.isAlpha || c.isDigit

/-- The class `[A-Z\s]` (also `[A-Za-z\s]`) under `re.IGNORECASE`. -/
def isAlphaSpaceC (c : Char) : Bool := c.isAlpha || isSpaceC c

/-- The class `[€$£₹]`. -/
def isCurrency4C (c : Char) : Bool := c = '€' || c = '$' || c = '£' || c = '₹'

/-- The class `[₹$€]` (the known-amount fallback). -/
def isCurrency3C (c : Char) : Bool := c = '₹' || c = '$' || c = '€'

/-- Python `\D`. -/
def isNotDigitC (c : Char) : Bool := !c.isDigit

/-- Python `str.strip()`. -/
def stripChars (cs : List Char) : List Char :=
  ((spanP isSpaceC ((spanP isSpaceC cs).2.reverse)).2).reverse

/-- Python `re.sub(r'\s+', ' ', s)`: collapse each whitespace run to one
space. -/
def collapseWs : List Char → List Char
  | [] => []
  | [c] => if isSpaceC c then [' '] else [c]
  | c1 :: c2 :: cs =>
    if isSpaceC c1 && isSpaceC c2 then collapseWs (c2 :: cs)
    else (if isSpaceC c1 then ' ' else c1) :: collapseWs (c2 :: cs)

/-- Python `str.title()` (ASCII model): uppercase a letter that follows a
non-letter, lowercase other letters. -/
def titleChars : Bool → List Char → List Char
  | _, [] => []
  | prevAlpha, c :: cs =>
    (if c.isAlpha then (if prevAlpha then c.toLower else c.toUpper) else c) ::
      titleChars c.isAlpha cs

theorem spanP_snd_subset (p : Char → Bool) (cs : List Char) :
    ∀ c ∈ (spanP p cs).2, c ∈ cs := by
  induction cs with
  | nil => simp [spanP]
  | cons x xs ih =>
    by_cases h : p x = true
    · simp only [spanP, h, if_true]
      intro c hc
      exact List.mem_cons_of_mem _ (ih c hc)
    · simp only [spanP, h, if_false]
      intro c hc
      simpa using hc

theorem stripChars_subset (cs : List Char) : ∀ c ∈ stripChars cs, c ∈ cs := by
  intro c hc
  rw [stripChars] at hc
  have h1 := List.mem_reverse.mp hc
  have h2 := spanP_snd_subset isSpaceC _ _ h1
  have h3 := List.mem_reverse.mp h2
  exact spanP_snd_subset isSpaceC _ _ h3

/-! ### `ocr.py`: `PATTERNS['utr']` and `extract_utr` -/

/-- `UPI\s+transaction\s+ID[:\s]*` (prefix of UTR pattern 1). -/
def utrPre1 : Rm :=
  rCat (rLit "UPI") (rCat (rPlusCls isSpaceC) (rCat (rLit "transaction")
    (rCat (rPlusCls isSpaceC) (rCat (rLit "ID") (rStarCls isColonSpaceC)))))

/-- `transaction\s+ID[:\s]*` (prefix of UTR pattern 2). -/
def utrPre2 : Rm :=
  rCat (rLit "transaction") (rCat (rPlusCls isSpaceC) (rCat (rLit "ID")
    (rStarCls isColonSpaceC)))

/-- `(?:UPI Ref no|UTR|Reference)[:\s]*` (prefix of UTR pattern 3). -/
def utrPre3 : Rm :=
  rCat (rAlt (rLit "UPI Ref no") (rAlt (rLit "UTR") (rLit "Reference")))
    (rStarCls isColonSpaceC)

/-- `Ref\.?\s*[Nn]o\.?\s*[:\s]*` (prefix of UTR pattern 4). -/
def utrPre4 : Rm :=
  rCat (rLit "Ref") (rCat (rOpt (rChar (fun c => c = '.')))
    (rCat (rStarCls isSpaceC) (rCat (rLitCh 'n') (rCat (rLitCh 'o')
      (rCat (rOpt (rChar (fun c => c = '.'))) (rCat (rStarCls isSpaceC)
        (rStarCls isColonSpaceC)))))))

/-- `Transaction\s+ID[:\s]*` (prefix of UTR pattern 5). -/
def utrPre5 : Rm :=
  rCat (rLit "Transaction") (rCat (rPlusCls isSpaceC) (rCat (rLit "ID")
    (rStarCls isColonSpaceC)))

/-- The six `PATTERNS['utr']` entries as prefix/group pairs (every UTR
pattern ends with its capturing group, so the trailing context is empty). -/
def utrPatternList : List (Rm × Gm) :=
  [(utrPre1, gRepCls Char.isDigit 12 12),
   (utrPre2, gRepCls Char.isDigit 12 12),
   (utrPre3, gRepCls isAlnumC 9 20),
   (utrPre4, gRepCls isAlnumC 9 20),
   (utrPre5, gRepCls isAlnumC 9 20),
   (rEps, gRepCls Char.isDigit 12 12)]

/-- The `for pattern in PATTERNS['utr']` loop body of `extract_utr`. -/
def extract_utr_loop (cs : List Char) : List (Rm × Gm) → Option String
  | [] => none
  | pg :: rest =>
    match searchCap pg.1 pg.2 rEps cs with
    | some cap =>
      let utr := stripChars cap
      if 9 ≤ utr.length ∧ utr.length ≤ 20 then some (String.mk utr)
      else extract_utr_loop cs rest
    | none => extract_utr_loop cs rest

/-- `extract_utr` from `ocr.py`. -/
def extract_utr (text : String) : Option String :=
  extract_utr_loop text.data utrPatternList

/-! ### `ocr.py`: `PATTERNS['amount']`, the GPay patterns, the known-amount
fallback, and `extract_amount` -/

/-- The amount group `(\d+(?:,\d{3})*(?:\.\d{2})?)`. -/
def amtGroupA : Gm :=
  gCat (gPlusCls Char.isDigit)
    (gCat (gStar (gCat (gChar (fun c => c = ',')) (gRepCls Char.isDigit 3 3)))
      (gOpt (gCat (gChar (fun c => c = '.')) (gRepCls Char.isDigit 2 2))))

/-- The amount group `(\d{2,6}(?:\.\d{2})?)`. -/
def amtGroupB : Gm :=
  gCat (gRepCls Char.isDigit 2 6)
    (gOpt (gCat (gChar (fun c => c = '.')) (gRepCls Char.isDigit 2 2)))

/-- The amount group `(\d+(?:\.\d{2})?)`. -/
def amtGroupC : Gm :=
  gCat (gPlusCls Char.isDigit)
    (gOpt (gCat (gChar (fun c => c = '.')) (gRepCls Char.isDigit 2 2)))

/-- `₹?\s*` (shared tail of several amount-pattern prefixes). -/
def optRupeeSpaces : Rm := rCat (rOpt (rLitCh '₹')) (rStarCls isSpaceC)

/-- The ten `PATTERNS['amount']` entries as (prefix, group, trailing
context) triples, in source order. -/
def amountPatternList : List (Rm × Gm × Rm) :=
  [(rCat (rLitCh '₹') (rStarCls isSpaceC), amtGroupA, rEps),
   (rCat (rLit "Rs") (rCat (rOpt (rChar (fun c => c = '.'))) (rStarCls isSpaceC)), amtGroupA,
     rEps),
   (rCat (rLit "INR") (rStarCls isSpaceC), amtGroupA, rEps),
   (rCat (rLit "Amount") (rCat (rPlusCls isColonSpaceC) optRupeeSpaces), amtGroupA, rEps),
   (rCat (rLit "Paid") (rCat (rStarCls isSpaceC) optRupeeSpaces), amtGroupA, rEps),
   (rCat (rLit "Received") (rCat (rStarCls isSpaceC) optRupeeSpaces), amtGroupA, rEps),
   (rCat (rLit "Total") (rCat (rPlusCls isColonSpaceC) optRupeeSpaces), amtGroupA, rEps),
   (rCat (rChar isCurrency4C) (rStarCls isSpaceC), amtGroupA, rEps),
   (rCat (rAlt (rLit "paid") (rAlt (rLit "sent") (rAlt (rLit "received")
      (rAlt (rLit "amount") (rLit "total"))))) (rRepCls isNotDigitC 0 10), amtGroupB, rEps),
   (rEps, amtGroupB,
     rCat (rStarCls isSpaceC) (rAlt (rLit "paid") (rAlt (rLit "sent") (rAlt (rLit "received")
       (rAlt (rLit "debited") (rLit "credited"))))))]

/-- The two GPay-specific patterns of `extract_amount`. -/
def gpayPatternList : List (Rm × Gm × Rm) :=
  [(rCat (rLit "+91") (rCat (rPlusCls isSpaceC) (rCat (rPlusCls Char.isDigit)
      (rCat (rPlusCls isSpaceC) (rCat (rPlusCls Char.isDigit) (rCat (rStarCls isSpaceC)
        (rCat (rPlusCls (fun c => c = '\n')) (rStarCls isSpaceC))))))),
    amtGroupC, rCat (rStarCls isSpaceC) (rChar (fun c => c = '\n'))),
   (rEps, amtGroupC,
    rCat (rStarCls isSpaceC) (rCat (rPlusCls (fun c => c = '\n')) (rCat (rStarCls isSpaceC)
      (rCat (rOpt (rChar (fun c => c = '@'))) (rCat (rStarCls isSpaceC)
        (rAlt (rLit "Pay again") (rLit "Completed")))))))]

/-- Python `float()` on the digit strings the amount groups capture
(`digits` or `digits.digits`), idealised as an exact rational. -/
def parseAmountQ (cs : List Char) : Option ℚ :=
  let r := spanP Char.isDigit cs
  if r.1 = [] then none
  else
    match r.2 with
    | [] => some ((digitsVal r.1 : Nat) : ℚ)
    | '.' :: fp =>
      if fp ≠ [] ∧ fp.all Char.isDigit then
        some (((digitsVal r.1 : Nat) : ℚ) + ((digitsVal fp : Nat) : ℚ) / (10 : ℚ) ^ fp.length)
      else none
    | _ => none

/-- One iteration of the first two loops of `extract_amount`: take the
pattern's first match, strip thousands separators, convert, and accept when
`1 <= amount <= 100000`. -/
def amountFromPatterns (cs : List Char) : List (Rm × Gm × Rm) → Option ℚ
  | [] => none
  | pgp :: rest =>
    match searchCap pgp.1 pgp.2.1 pgp.2.2 cs with
    | some cap =>
      match parseAmountQ (cap.filter (fun c => c != ',')) with
      | some amount =>
        if 1 ≤ amount ∧ amount ≤ 100000 then some amount else amountFromPatterns cs rest
      | none => amountFromPatterns cs rest
    | none => amountFromPatterns cs rest

/-- `(?<!\d)` as a leading-context test. -/
def prevNotDigit : Option Char → Bool
  | some c => !c.isDigit
  | none => true

/-- `(?:\.00?)?`. -/
def optDotZeros : Rm :=
  rOpt (rCat (rChar (fun c => c = '.')) (rCat (rChar (fun c => c = '0'))
    (rOpt (rChar (fun c => c = '0')))))

/-- The three known-amount fallback patterns for one known price point
(digits `kcs`), in source order. -/
def knownAmountMatch (kcs : List Char) (cs : List Char) : Bool :=
  searchBool prevNotDigit (rCat (rLitL kcs) (rCat optDotZeros rNotDigitAhead)) cs ||
  searchBool (fun _ => true)
    (rCat (rChar isCurrency3C) (rCat (rStarCls isSpaceC)
      (rCat (rLitL kcs) (rCat optDotZeros rNotDigitAhead)))) cs ||
  searchBool prevNotDigit
    (rCat (rLitL kcs) (rCat optDotZeros (rCat (rStarCls isSpaceC)
      (rAlt (rLit "rs") (rAlt (rLit "rupee") (rLit "inr")))))) cs

/-- `extract_amount` from `ocr.py`: standard patterns, then the GPay
patterns, then the known price points `[10, 49, 99]`. -/
def extract_amount (text : String) : Option ℚ :=
  let cs := text.data
  match amountFromPatterns cs amountPatternList with
  | some a => some a
  | none =>
    match amountFromPatterns cs gpayPatternList with
    | some a => some a
    | none =>
      if knownAmountMatch ['1', '0'] cs then some 10
      else if knownAmountMatch ['4', '9'] cs then some 49
      else if knownAmountMatch ['9', '9'] cs then some 99
      else none

/-! ### `ocr.py`: `extract_sender`, `extract_recipient` -/

/-- The four `PATTERNS['sender']` entries (prefix, lazy group, trailing
context — the lookaheads only gate the match, so they act as trailing
context here). -/
def senderPatternList : List (Rm × Gm × Rm) :=
  [(rCat (rLit "From") (rPlusCls isColonSpaceC), gPlusLazyCls isAlphaSpaceC,
    rCat (rStarCls isSpaceC) (rChar (fun c => c = '('))),
   (rCat (rLit "Paid") (rCat (rPlusCls isSpaceC) (rCat (rLit "by") (rPlusCls isColonSpaceC))),
    gPlusLazyCls isAlphaSpaceC, rCat (rStarCls isSpaceC) (rChar (fun c => c = '('))),
   (rCat (rLit "from") (rPlusCls isSpaceC), gPlusLazyCls isAlphaSpaceC,
    rAlt (rCat (rStarCls isSpaceC) (rChar (fun c => c = '-' || c = '@')))
      (rAlt (rCat (rStarCls isSpaceC) (rLit "UPI"))
        (rCat (rStarCls isSpaceC) (rChar (fun c => c = '('))))),
   (rCat (rLit "Sender") (rPlusCls isColonSpaceC), gPlusLazyCls isAlphaSpaceC,
    rAlt (rCat (rStarCls isSpaceC) (rChar (fun c => c = '-' || c = '@')))
      (rCat (rStarCls isSpaceC) (rChar (fun c => c = '('))))]

/-- The two `PATTERNS['recipient']` entries. -/
def recipientPatternList : List (Rm × Gm × Rm) :=
  [(rCat (rLit "To") (rPlusCls isSpaceC), gPlusLazyCls isAlphaSpaceC, rNlOrEnd),
   (rCat (rLit "Paid") (rCat (rPlusCls isSpaceC) (rCat (rLit "to") (rPlusCls isColonSpaceC))),
    gPlusLazyCls isAlphaSpaceC, rNlOrEnd)]

/-- Shared loop of `extract_sender` / `extract_recipient`: first match,
`strip()`, collapse whitespace, keep names of length 2..50, `title()` it. -/
def extract_name_loop (cs : List Char) : List (Rm × Gm × Rm) → Option String
  | [] => none
  | pgp :: rest =>
    match searchCap pgp.1 pgp.2.1 pgp.2.2 cs with
    | some cap =>
      let name := collapseWs (stripChars cap)
      if 2 ≤ name.length ∧ name.length ≤ 50 then some (String.mk (titleChars false name))
      else extract_name_loop cs rest
    | none => extract_name_loop cs rest

/-- `extract_sender` from `ocr.py`. -/
def extract_sender (text : String) : Option String :=
  extract_name_loop text.data senderPatternList

/-- `extract_recipient` from `ocr.py`. -/
def extract_recipient (text : String) : Option String :=
  extract_name_loop text.data recipientPatternList

/-! ### `ocr.py`: `calculate_confidence`, `process_payment_screenshot` -/

/-- `calculate_confidence` from `ocr.py`: 0.5 for an amount, 0.4 for a UTR,
0.1 for a sender, additively. -/
def calculate_confidence (amount : Option ℚ) (utr : Option String) (sender : Option String) :
    ℚ :=
  (if amount.isSome then (0.5 : ℚ) else 0) + (if utr.isSome then (0.4 : ℚ) else 0) +
    (if sender.isSome then (0.1 : ℚ) else 0)

/-- Line 249 of `ocr.py`: `needs_review = confidence < 0.4 or utr is None`. -/
def needsReviewOf (confidence : ℚ) (utr : Option String) : Bool :=
  decide (confidence < (0.4 : ℚ)) || utr.isNone

/-- The record returned by `process_payment_screenshot`.  Fields that a
branch of the source leaves out of its dict are `none` here, matching the
`result.get(...)` reads in `bot.py`.  Note there is no recipient-validity
field: the success dict of the source has no `recipient_valid` key. -/
structure OcrResult where
  success : Bool
  error : Option String
  amount : Option ℚ
  utr : Option String
  sender : Option String
  recipient : Option String
  recipient_valid : Option Bool
  confidence : ℚ
  needs_review : Option Bool
  raw_text : Option String
deriving DecidableEq, Repr

/-- `process_payment_screenshot` from `ocr.py`, taking the OCR'd text as
input (`extract_text_from_image` is external I/O; it returns `""` on any
OCR failure, which is exactly the falsy value the source tests). -/
def process_payment_screenshot (text : String) : OcrResult :=
  if text = "" then
    { success := false, error := some "Failed to extract text from image", amount := none,
      utr := none, sender := none, recipient := none, recipient_valid := none,
      confidence := 0, needs_review := none, raw_text := none }
  else
    let amount := extract_amount text
    let utr := extract_utr text
    let sender := extract_sender text
    let recipient := extract_recipient text
    let confidence := calculate_confidence amount utr sender
    let needs_review := needsReviewOf confidence utr
    { success := true, error := none, amount := amount, utr := utr, sender := sender,
      recipient := recipient, recipient_valid := none, confidence := confidence,
      needs_review := some needs_review, raw_text := some (String.mk (text.data.take 1000)) }

/-! ### `bot.py`: storage model, duplicate guard, persistence, photo handler

MongoDB is modelled as an in-memory list of transaction records; each of
`check_utr_exists` / `save_transaction` takes a boolean saying whether its
own `get_database()` call succeeds (the source pings the server per call).
The Telegram transport is dropped: `handle_photo` becomes a function from
the OCR record, the store and the caller's identity to a terminal outcome
plus the updated store.  Each `Outcome` constructor is one of the handler's
mutually exclusive terminal replies, in source order. -/

/-- A document of the `transactions` collection, as built by
`save_transaction` (the source can pass `utr=None` through, hence
`Option`). -/
structure TransactionRecord where
  utr : Option String
  amount : ℚ
  credits : Int
  sender : String
  telegram_user : String
  telegram_id : Int
  created_at : Nat
  status : String
deriving DecidableEq, Repr

/-- The dict returned by `check_utr_exists`: `{"exists": False}`,
`{"exists": False, "error": "Database unavailable"}` or
`{"exists": True, "user": ..., "date": ..., "credits": ...}` — absent keys
are `none`. -/
structure UtrCheck where
  exists_ : Bool
  user : Option String
  date : Option Nat
  credits : Option Int
  error : Option String
deriving DecidableEq, Repr

/-- `check_utr_exists` from `bot.py`; `dbUp` is whether this call's
`get_database()` succeeds. -/
def check_utr_exists (dbUp : Bool) (store : List TransactionRecord) (utr : String) : UtrCheck :=
  if dbUp = false then
    { exists_ := false, user := none, date := none, credits := none,
      error := some "Database unavailable" }
  else
    match store.find? (fun r => r.utr == some utr) with
    | some existing =>
      { exists_ := true, user := some existing.telegram_user,
        date := some existing.created_at, credits := some existing.credits, error := none }
    | none => { exists_ := false, user := none, date := none, credits := none, error := none }

/-- `save_transaction` from `bot.py`: returns `False` and leaves the store
unchanged when the database is unreachable, else inserts the record (status
`"license_generated"`) and returns `True`.  The caller ignores the
returned flag, which is mirrored in `handle_photo` below. -/
def save_transaction (dbUp : Bool) (store : List TransactionRecord) (utr : Option String)
    (amount : ℚ) (credits : Int) (sender : String) (telegram_user : String)
    (telegram_id : Int) (now : Nat) : Bool × List TransactionRecord :=
  if dbUp = false then (false, store)
  else
    (true, store ++ [TransactionRecord.mk utr amount credits sender telegram_user telegram_id
      now "license_generated"])

/-- Python `needle in haystack` on strings: substring containment. -/
def containsSub (needle : List Char) : List Char → Bool
  | [] => needle.isPrefixOf []
  | c :: rest => needle.isPrefixOf (c :: rest) || containsSub needle rest

/-- The `any(err in error_msg for err in [...])` test of `handle_photo`. -/
def isBusyError (error_msg : String) : Bool :=
  containsSub "503".data error_msg.data || containsSub "429".data error_msg.data ||
    containsSub "overloaded".data error_msg.data ||
    containsSub "UNAVAILABLE".data error_msg.data ||
    containsSub "RESOURCE_EXHAUSTED".data error_msg.data

/-- Python truthiness of an optional string (`if utr:`). -/
def strTruthy : Option String → Bool
  | some s => !(s == "")
  | none => false

/-- `sender or "Unknown"`. -/
def senderOrUnknown : Option String → String
  | some s => if s = "" then "Unknown" else s
  | none => "Unknown"

/-- The mutually exclusive terminal outcomes of `handle_photo`, in source
order. -/
inductive Outcome where
  | serverBusy
  | verificationFailed
  | wrongRecipient (recipient : Option String)
  | needsReview
  | duplicate (prevUser : Option String)
  | amountMissing
  | issued (license_key : String) (credits : Int)
deriving DecidableEq, Repr

/-- Whether an outcome is the issued terminal state. -/
def Outcome.isIssued : Outcome → Bool
  | .issued _ _ => true
  | _ => false

/-- `handle_photo` from `bot.py` (photo download, message sending and the
admin notification are transport I/O and are dropped; `dbCheckUp` /
`dbSaveUp` are the availability of the database at the duplicate-check and
persistence calls).  The duplicate branch recomputes `check_utr_exists`;
the function is pure, so this equals the source's single `utr_check`
variable. -/
def handle_photo (result : OcrResult) (store : List TransactionRecord)
    (dbCheckUp dbSaveUp : Bool) (telegram_user : String) (telegram_id : Int) (now : Nat) :
    Outcome × List TransactionRecord :=
  if result.success = false then
    (if isBusyError (result.error.getD "") then .serverBusy else .verificationFailed, store)
  else if (result.recipient_valid.getD false) = false then
    (.wrongRecipient result.recipient, store)
  else if result.needs_review.getD false then
    (.needsReview, store)
  else if strTruthy result.utr &&
      (check_utr_exists dbCheckUp store (result.utr.getD "")).exists_ then
    (.duplicate (check_utr_exists dbCheckUp store (result.utr.getD "")).user, store)
  else
    match result.amount with
    | none => (.amountMissing, store)
    | some amount =>
      if amount = 0 then (.amountMissing, store)
      else
        let credits := calculate_credits amount
        let license_key := generate_license_key amount result.utr credits now
        let saved := save_transaction dbSaveUp store result.utr amount credits
          (senderOrUnknown result.sender) telegram_user telegram_id now
        (.issued license_key credits, saved.2)

/-! ### Handler-run lemmas -/

theorem handle_photo_issue_run (r : OcrResult) (store : List TransactionRecord)
    (dbCheckUp : Bool) (tg : String) (tid : Int) (t : Nat) (u : String) (a : ℚ)
    (h1 : r.success = true) (h2 : r.recipient_valid.getD false = true)
    (h3 : r.needs_review.getD false = false)
    (h4 : r.utr = some u) (h5 : u ≠ "")
    (h6 : r.amount = some a) (h7 : a ≠ 0)
    (h8 : (check_utr_exists dbCheckUp store u).exists_ = false) :
    handle_photo r store dbCheckUp true tg tid t =
      (.issued (generate_license_key a (some u) (calculate_credits a) t) (calculate_credits a),
        store ++ [TransactionRecord.mk (some u) a (calculate_credits a)
          (senderOrUnknown r.sender) tg tid t "license_generated"]) := by
  rw [handle_photo]
  simp only [h1, h2, h3, h4, h6, Option.getD_some, Bool.true_eq_false, if_false,
    Bool.false_eq_true, strTruthy, h8, Bool.and_false, save_transaction]
  simp [h5, h7]

theorem handle_photo_duplicate_run (r : OcrResult) (store : List TransactionRecord)
    (tg : String) (tid : Int) (t : Nat) (u : String) (prev : TransactionRecord)
    (h1 : r.success = true) (h2 : r.recipient_valid.getD false = true)
    (h3 : r.needs_review.getD false = false)
    (h4 : r.utr = some u) (h5 : u ≠ "")
    (h8 : store.find? (fun rec => rec.utr == some u) = some prev) :
    handle_photo r store true true tg tid t =
      (.duplicate (some prev.telegram_user), store) := by
  rw [handle_photo]
  have hcheck : check_utr_exists true store u =
      { exists_ := true, user := some prev.telegram_user, date := some prev.created_at,
        credits := some prev.credits, error := none } := by
    rw [check_utr_exists]
    simp [h8]
  simp only [h1, h2, h3, h4, Option.getD_some, Bool.true_eq_false, if_false,
    Bool.false_eq_true, strTruthy, hcheck]
  simp [h5]

/-! ### Concrete fixtures used by several claims' theorems and witnesses -/

/-- A concrete extraction record that passes every pre-issuance gate of the
handler. -/
def okResult : OcrResult :=
  { success := true, error := none, amount := some 10, utr := some "600821859735",
    sender := some "Dharshan L", recipient := some "Dharani Sundharam",
    recipient_valid := some true, confidence := 0, needs_review := some false,
    raw_text := none }

/-- A store already holding a transaction record for the same UTR. -/
def storeWithUtr : List TransactionRecord :=
  [TransactionRecord.mk (some "600821859735") 10 1000 "Dharshan L" "alice" 1 100
    "license_generated"]

/-- Claim C1 (code bug): when the database is unreachable at the duplicate
check, `check_utr_exists` does return the distinguished
`{"exists": False, "error": "Database unavailable"}` value (first
conjunct), but `handle_photo` only reads the `exists` key, treats the state
as not-found, and goes on to issue a license key — here even though the
store already holds a record for the same UTR (second conjunct).  The
coordinator therefore reaches the issued terminal state instead of a
non-issued hard stop, contradicting the claim's second half. -/
theorem C1_storage_unavailable_issues_token :
    check_utr_exists false storeWithUtr "600821859735" =
      { exists_ := false, user := none, date := none, credits := none,
        error := some "Database unavailable" } ∧
    (handle_photo okResult storeWithUtr false true "bob" 2 500).1 =
      .issued (generate_license_key 10 (some "600821859735") 1000 500) 1000 ∧
    ((handle_photo okResult storeWithUtr false true "bob" 2 500).1).isIssued = true := by
  refine ⟨rfl, ?_, ?_⟩ <;> decide

/-- Claim C4 (code bug): a run that reaches the issued terminal state while
the database is unreachable at the persistence call: `save_transaction`
returns `False`, `handle_photo` ignores the flag, the license key is still
delivered, and no `TransactionRecord` is written (the store is unchanged). -/
theorem C4_token_issued_without_record :
    (handle_photo okResult [] true false "bob" 2 500).1 =
      .issued (generate_license_key 10 (some "600821859735") 1000 500) 1000 ∧
    (handle_photo okResult [] true false "bob" 2 500).2 = [] := by
  constructor <;> decide

/-- Claim C2: with storage reachable, after a first request for UTR `u` has
issued and persisted its `TransactionRecord`, a second request carrying the
same `u` terminates at the duplicate outcome, leaves the store unchanged
(so no second token is issued), and the store holds exactly one record for
`u`. -/
theorem C2_second_request_duplicate
    (r1 r2 : OcrResult) (store : List TransactionRecord) (u : String) (a : ℚ)
    (tg1 tg2 : String) (id1 id2 : Int) (t1 t2 : Nat)
    (h1 : r1.success = true) (h2 : r1.recipient_valid.getD false = true)
    (h3 : r1.needs_review.getD false = false)
    (h4 : r1.utr = some u) (h5 : u ≠ "")
    (h6 : r1.amount = some a) (h7 : a ≠ 0)
    (h8 : store.find? (fun rec => rec.utr == some u) = none)
    (g1 : r2.success = true) (g2 : r2.recipient_valid.getD false = true)
    (g3 : r2.needs_review.getD false = false) (g4 : r2.utr = some u) :
    (handle_photo r1 store true true tg1 id1 t1).1 =
      .issued (generate_license_key a (some u) (calculate_credits a) t1)
        (calculate_credits a) ∧
    handle_photo r2 (handle_photo r1 store true true tg1 id1 t1).2 true true tg2 id2 t2 =
      (.duplicate (some tg1), (handle_photo r1 store true true tg1 id1 t1).2) ∧
    (handle_photo r1 store true true tg1 id1 t1).2.countP
      (fun rec => rec.utr == some u) = 1 := by
  have hcheck : (check_utr_exists true store u).exists_ = false := by
    rw [check_utr_exists]
    simp [h8]
  have hrun1 := handle_photo_issue_run r1 store true tg1 id1 t1 u a
    h1 h2 h3 h4 h5 h6 h7 hcheck
  set newRec := TransactionRecord.mk (some u) a (calculate_credits a)
    (senderOrUnknown r1.sender) tg1 id1 t1 "license_generated" with hnewRec
  have hfind2 : (store ++ [newRec]).find? (fun rec => rec.utr == some u) = some newRec := by
    rw [List.find?_append, h8]
    simp [hnewRec]
  have hrun2 := handle_photo_duplicate_run r2 (store ++ [newRec]) tg2 id2 t2 u newRec
    g1 g2 g3 g4 h5 hfind2
  have hcount : (store ++ [newRec]).countP (fun rec => rec.utr == some u) = 1 := by
    rw [List.countP_append]
    have hz : store.countP (fun rec => rec.utr == some u) = 0 := by
      rw [List.countP_eq_zero]
      intro x hx
      have := List.find?_eq_none.mp h8 x hx
      simpa using this
    have ho : List.countP (fun rec => rec.utr == some u) [newRec] = 1 := by
      simp [List.countP_cons, hnewRec]
    omega
  refine ⟨?_, ?_, ?_⟩
  · rw [hrun1]
  · rw [hrun1]
    simpa [hnewRec] using hrun2
  · rw [hrun1]
    simpa using hcount

/-- Witness for C2 at a concrete pair of requests. -/
theorem C2_second_request_duplicate_witness :
    (handle_photo okResult [] true true "alice" 1 100).1 =
      .issued (generate_license_key 10 (some "600821859735") (calculate_credits 10) 100)
        (calculate_credits 10) ∧
    handle_photo okResult (handle_photo okResult [] true true "alice" 1 100).2 true true
        "bob" 2 200 =
      (.duplicate (some "alice"), (handle_photo okResult [] true true "alice" 1 100).2) ∧
    (handle_photo okResult [] true true "alice" 1 100).2.countP
      (fun rec => rec.utr == some "600821859735") = 1 :=
  C2_second_request_duplicate okResult okResult [] "600821859735" 10 "alice" "bob" 1 2 100 200
    rfl (by decide) (by decide) rfl (by decide) rfl (by decide) rfl rfl (by decide) (by decide)
    rfl

/-- Claim C3: the success dict of `process_payment_screenshot` carries no
recipient-validity key (first conjunct), so the handler's
`result.get('recipient_valid', False)` defaults to `False` and every
successful extraction terminates at the wrong-recipient outcome (second
conjunct); consequently the composed OCR-to-handler pipeline can never
reach the issued terminal state, whatever the OCR text (third conjunct). -/
theorem C3_pipeline_never_issues (text : String) (store : List TransactionRecord)
    (dbCheckUp dbSaveUp : Bool) (tg : String) (tid : Int) (now : Nat) :
    (process_payment_screenshot text).recipient_valid = none ∧
    ((process_payment_screenshot text).success = true →
      handle_photo (process_payment_screenshot text) store dbCheckUp dbSaveUp tg tid now =
        (.wrongRecipient (process_payment_screenshot text).recipient, store)) ∧
    ((handle_photo (process_payment_screenshot text) store dbCheckUp dbSaveUp tg tid
      now).1).isIssued = false := by
  by_cases h : text = ""
  · refine ⟨by simp [process_payment_screenshot, h], ?_, ?_⟩
    · intro hs
      rw [process_payment_screenshot] at hs
      simp [h] at hs
    · rw [process_payment_screenshot]
      simp only [h, if_true, reduceIte]
      rw [handle_photo]
      simp only [Bool.false_eq_true]
      split <;> rfl
  · refine ⟨by simp [process_payment_screenshot, h], ?_, ?_⟩
    · intro _
      rw [process_payment_screenshot]
      simp only [h, if_false, reduceIte]
      rw [handle_photo]
      simp
    · rw [process_payment_screenshot]
      simp only [h, if_false, reduceIte]
      rw [handle_photo]
      simp [Outcome.isIssued]

/-- Witness for C3 at a concrete text. -/
theorem C3_pipeline_never_issues_witness :
    handle_photo (process_payment_screenshot "x") [] true true "bob" 2 0 =
      (.wrongRecipient (process_payment_screenshot "x").recipient,
        ([] : List TransactionRecord)) :=
  (C3_pipeline_never_issues "x" [] true true "bob" 2 0).2.1 (by decide)

/-- Claim C5: a token decoded 301 or more seconds after issuance comes back
invalid with the expiry reason; the embedded expiry is issuance time plus
the fixed 300-second window (it is carried in the result's `data` field).
The UTR hypothesis reflects the serializer model (any UTR without a `"`;
every UTR the pipeline produces is a digit string). -/
theorem C5_expired_decode (amount : ℚ) (utr : String) (credits : Int) (t now : Nat)
    (hq : '\"' ∉ utr.data) (hnow : t + 301 ≤ now) :
    decrypt_license_key (generate_license_key amount (some utr) credits t) now =
      .invalid "License key expired" (some ⟨some utr, credits, t + 300⟩) := by
  rw [decrypt_generate amount (some utr) credits t now hq]
  rw [if_pos (by omega)]

/-- Witness for C5: a concrete token decoded 301 seconds after issuance. -/
theorem C5_expired_decode_witness :
    decrypt_license_key (generate_license_key 10 (some "600821859735") 1000 0) 301 =
      .invalid "License key expired" (some ⟨some "600821859735", 1000, 300⟩) :=
  C5_expired_decode 10 "600821859735" 1000 0 301 (by decide) (by decide)

/-- Claim C6: decoding a token strictly before its embedded expiry returns
a valid result carrying exactly the reference and credits that were
encoded. -/
theorem C6_roundtrip_decode (amount : ℚ) (utr : String) (credits : Int) (t now : Nat)
    (hq : '\"' ∉ utr.data) (hnow : now < t + 300) :
    decrypt_license_key (generate_license_key amount (some utr) credits t) now =
      .valid (some utr) credits (t + 300) := by
  rw [decrypt_generate amount (some utr) credits t now hq]
  rw [if_neg (by omega)]

/-- Witness for C6: a concrete round trip before expiry. -/
theorem C6_roundtrip_decode_witness :
    decrypt_license_key (generate_license_key 10 (some "600821859735") 1000 0) 5 =
      .valid (some "600821859735") 1000 300 :=
  C6_roundtrip_decode 10 "600821859735" 1000 0 5 (by decide) (by decide)

/-- Claim C7, in three parts.  (1) The decoder is total with a typed
result: every input string yields either a valid or an invalid value (every
failure path of the source returns a dict rather than raising).  (2)
Fail-closed under tamper: modifying any single byte of the ciphertext of a
genuine token to a different byte value makes decoding fail with the typed
invalid result (the length bound reflects the 48-bit tag of the
authenticated-encryption model; it covers every physically producible
token).  (3) A valid decode only ever arises from a ciphertext that is the
authentic encryption, under the shared key, of a claim set equal to the one
returned, and only before its expiry — so no modified token can decode
into a claim set differing from one actually encoded. -/
theorem C7_decoder_fails_closed :
    (∀ (s : String) (now : Nat),
      (∃ u c e, decrypt_license_key s now = .valid u c e) ∨
      (∃ err d, decrypt_license_key s now = .invalid err d)) ∧
    (∀ (utr : Option String) (credits : Int) (t now i v : Nat),
      (match utr with | some s => '\"' ∉ s.data | none => True) →
      (licenseCiphertext utr credits t).length < 2 ^ 40 →
      i < (licenseCiphertext utr credits t).length →
      v < 256 → v ≠ (licenseCiphertext utr credits t).getD i 0 →
      decrypt_license_key
        ("CP-" ++ String.mk (b64Encode ((licenseCiphertext utr credits t).set i v))) now =
        .invalid "Invalid license key" none) ∧
    (∀ (s : String) (now : Nat) (u : Option String) (c : Int) (e : Nat),
      decrypt_license_key s now = .valid u c e →
      ∃ ct pt, b64Decode (stripCPPrefix s.data) = some ct ∧
        ct = fernetEncrypt fernetKeyN pt ∧
        (utf8Decode pt).bind jsonLoadsLicense = some ⟨u, c, e⟩ ∧ now ≤ e) := by
  refine ⟨?_, ?_, ?_⟩
  · intro s now
    cases hd : decrypt_license_key s now with
    | valid u c e => exact Or.inl ⟨u, c, e, rfl⟩
    | invalid err d => exact Or.inr ⟨err, d, rfl⟩
  · intro utr credits t now i v hq hlen hi hv hne
    rw [decrypt_license_key]
    have hdata : ("CP-" ++ String.mk
        (b64Encode ((licenseCiphertext utr credits t).set i v))).data
        = 'C' :: 'P' :: '-' :: b64Encode ((licenseCiphertext utr credits t).set i v) := by
      rw [String.data_append]
      rfl
    have hstrip : stripCPPrefix
        ('C' :: 'P' :: '-' :: b64Encode ((licenseCiphertext utr credits t).set i v))
        = b64Encode ((licenseCiphertext utr credits t).set i v) := by
      rw [stripCPPrefix]
      simp
    rw [hdata, hstrip]
    have hbytes : ∀ b ∈ (licenseCiphertext utr credits t).set i v, b < 256 := by
      intro b hb
      rcases List.mem_or_eq_of_mem_set hb with hb' | hb'
      · exact fernetEncrypt_utf8_bytes_lt _ b hb'
      · omega
    rw [b64Decode_b64Encode _ hbytes]
    have hlc : licenseCiphertext utr credits t =
        fernetEncrypt fernetKeyN (utf8Bytes (jsonDumpsLicense ⟨utr, credits, t + 300⟩)) := rfl
    rw [hlc] at hlen hi hne
    have hptlen : (utf8Bytes (jsonDumpsLicense ⟨utr, credits, t + 300⟩)).length < 2 ^ 40 := by
      have : (fernetEncrypt fernetKeyN
          (utf8Bytes (jsonDumpsLicense ⟨utr, credits, t + 300⟩))).length =
          (utf8Bytes (jsonDumpsLicense ⟨utr, credits, t + 300⟩)).length + 6 := by
        simp [fernetEncrypt, tagBytes_length]
      omega
    have hgetd := List.getD_eq_getElem
      (fernetEncrypt fernetKeyN (utf8Bytes (jsonDumpsLicense ⟨utr, credits, t + 300⟩))) 0 hi
    have htamper := fernetDecrypt_tamper fernetKeyN
      (utf8Bytes (jsonDumpsLicense ⟨utr, credits, t + 300⟩)) i v
      (utf8Bytes_lt _) hptlen hi hv (by rw [← hgetd]; exact hne)
    simp only [hlc, htamper]
  · intro s now u c e h
    rw [decrypt_license_key] at h
    cases hb : b64Decode (stripCPPrefix s.data) with
    | none =>
      simp only [hb] at h
      exact absurd h (by simp)
    | some ct =>
      simp only [hb] at h
      cases hf : fernetDecrypt fernetKeyN ct with
      | none =>
        simp only [hf] at h
        exact absurd h (by simp)
      | some pt =>
        simp only [hf] at h
        cases hu : utf8Decode pt with
        | none =>
          simp only [hu] at h
          exact absurd h (by simp)
        | some plain =>
          simp only [hu] at h
          cases hj : jsonLoadsLicense plain with
          | none =>
            simp only [hj] at h
            exact absurd h (by simp)
          | some d =>
            simp only [hj] at h
            by_cases he : now > d.e
            · rw [if_pos he] at h
              exact absurd h (by simp)
            · rw [if_neg he] at h
              obtain ⟨hd1, hd2, hd3⟩ : d.u = u ∧ d.c = c ∧ d.e = e := by
                simpa using h
              refine ⟨ct, pt, rfl, fernetDecrypt_genuine hf, ?_, by omega⟩
              rw [hu]
              simp only [Option.some_bind, hj]
              rw [← hd1, ← hd2, ← hd3]

/-- Witness for C7: flipping the first ciphertext byte of a concrete token
(123, the `\x7b` of the JSON object, to 124) makes decoding fail closed. -/
theorem C7_decoder_fails_closed_witness :
    decrypt_license_key
      ("CP-" ++ String.mk (b64Encode ((licenseCiphertext (some "600821859735") 1000 0).set 0 124)))
      5 = .invalid "Invalid license key" none :=
  C7_decoder_fails_closed.2.1 (some "600821859735") 1000 0 5 0 124 (by decide) (by decide)
    (by decide) (by decide) (by decide)

/-- Counterexample to C8 as stated: at amount `-0.015` (which falls in the
"otherwise" branch), the source's `int(amount * 100)` truncates toward
zero and yields `-1`, whereas `floor(amount * 100) = floor(-1.5) = -2` —
so the calculator does not return `floor(amount * 100)` for every input
amount. -/
theorem C8_floor_counterexample :
    ((-3 / 200 : ℚ) < 10) ∧
    calculate_credits (-3 / 200 : ℚ) = -1 ∧
    (⌊((-3 / 200 : ℚ) * 100)⌋ : Int) = -2 ∧
    calculate_credits (-3 / 200 : ℚ) ≠ ⌊((-3 / 200 : ℚ) * 100)⌋ := by
  have h2 : calculate_credits (-3 / 200 : ℚ) = -1 := by
    rw [calculate_credits, if_neg (by norm_num), if_neg (by norm_num), if_neg (by norm_num),
      pyIntTrunc, if_pos (by norm_num)]
    norm_num
  have h3 : (⌊((-3 / 200 : ℚ) * 100)⌋ : Int) = -2 := by norm_num
  exact ⟨by norm_num, h2, h3, by rw [h2, h3]; decide⟩

/-- Claim C8 as amended: the tier thresholds are as the claim states, but
the "otherwise" branch computes Python's `int(amount * 100)` — truncation
toward zero — which coincides with `floor(amount * 100)` exactly for
non-negative amounts (Python floats idealised as exact rationals). -/
theorem C8_credit_tiers (amount : ℚ) :
    (amount ≥ 99 → calculate_credits amount = 13000) ∧
    (49 ≤ amount ∧ amount < 99 → calculate_credits amount = 7000) ∧
    (10 ≤ amount ∧ amount < 49 → calculate_credits amount = 1000) ∧
    (amount < 10 → calculate_credits amount = pyIntTrunc (amount * 100)) ∧
    (0 ≤ amount ∧ amount < 10 → calculate_credits amount = ⌊amount * 100⌋) := by
  refine ⟨?_, ?_, ?_, ?_, ?_⟩
  · intro h
    rw [calculate_credits, if_pos h]
  · rintro ⟨h1, h2⟩
    rw [calculate_credits, if_neg (by linarith), if_pos (by linarith)]
  · rintro ⟨h1, h2⟩
    rw [calculate_credits, if_neg (by linarith), if_neg (by linarith), if_pos (by linarith)]
  · intro h
    rw [calculate_credits, if_neg (by linarith), if_neg (by linarith), if_neg (by linarith)]
  · rintro ⟨h1, h2⟩
    rw [calculate_credits, if_neg (by linarith), if_neg (by linarith), if_neg (by linarith),
      pyIntTrunc, if_neg (not_lt.mpr (by positivity))]

/-- Witness for C8 at a concrete amount in the top tier. -/
theorem C8_credit_tiers_witness :
    ((100 : ℚ) ≥ 99) ∧ calculate_credits (100 : ℚ) = 13000 :=
  ⟨by norm_num, (C8_credit_tiers 100).1 (by norm_num)⟩

/-- Counterexample to C9 as stated: an extraction with the amount absent
but the reference and sender present scores `0.4 + 0.1 = 0.5`, which is
below the claimed `0.7` threshold, yet the source's review flag
(`confidence < 0.4 or utr is None`) is `False` — so `needsReview` is not
true whenever confidence is below `0.7`. -/
theorem C9_threshold_counterexample :
    calculate_confidence none (some "600821859735") (some "Dharshan L") = 0.5 ∧
    ((0.5 : ℚ) < 0.7) ∧
    needsReviewOf (calculate_confidence none (some "600821859735") (some "Dharshan L"))
      (some "600821859735") = false := by
  have h1 : calculate_confidence none (some "600821859735") (some "Dharshan L") = 0.5 := by
    rw [calculate_confidence]
    norm_num
  refine ⟨h1, by norm_num, ?_⟩
  rw [needsReviewOf, h1]
  norm_num

/-- Claim C9 as amended: confidence is the additive 0.5/0.4/0.1 score, and
an extraction with amount and reference present and sender absent scores
0.9 with the review flag clear; but the source's threshold is `0.4`, not
`0.7` — and since a present reference alone already contributes `0.4`,
the review flag computed from the additive score reduces to exactly
"the transaction reference is absent". -/
theorem C9_confidence_scoring :
    (∀ (a : ℚ) (u : String),
      calculate_confidence (some a) (some u) none = 0.9 ∧
      needsReviewOf (calculate_confidence (some a) (some u) none) (some u) = false) ∧
    (∀ (a : Option ℚ) (u s : Option String),
      needsReviewOf (calculate_confidence a u s) u = u.isNone) := by
  constructor
  · intro a u
    have h1 : calculate_confidence (some a) (some u) none = 0.9 := by
      rw [calculate_confidence]
      norm_num
    refine ⟨h1, ?_⟩
    rw [needsReviewOf, h1]
    norm_num
  · intro a u s
    cases u with
    | none => simp [needsReviewOf]
    | some u =>
      cases a <;> cases s <;>
        simp [needsReviewOf, calculate_confidence] <;> norm_num

/-- Counterexample to C10 as stated: the text `"UTR: ABCDEFGHI"` matches
the third UTR pattern (`(?:UPI Ref no|UTR|Reference)[:\s]*([A-Z0-9]{9,20})`),
whose capture is a nine-character alphabetic string — not a string of
exactly 12 digits — and `extract_utr` returns it. -/
theorem C10_alnum_counterexample :
    extract_utr "UTR: ABCDEFGHI" = some "ABCDEFGHI" ∧
    ("ABCDEFGHI" : String).length = 9 ∧
    ¬(∀ c ∈ ("ABCDEFGHI" : String).data, c.isDigit = true) := by
  refine ⟨by decide, by decide, by decide⟩

theorem extract_utr_loop_shape (cs : List Char) (pats : List (Rm × Gm))
    (hp : ∀ pg ∈ pats, ∀ r1 cap rest, (cap, rest) ∈ pg.2 r1 →
      ∀ c ∈ cap, isAlnumC c = true) :
    extract_utr_loop cs pats = none ∨
    ∃ u, extract_utr_loop cs pats = some u ∧ 9 ≤ u.length ∧ u.length ≤ 20 ∧
      ∀ c ∈ u.data, isAlnumC c = true := by
  induction pats with
  | nil => exact Or.inl rfl
  | cons pg rest ih =>
    have hrest := ih (fun pg' h' => hp pg' (List.mem_cons_of_mem _ h'))
    cases hs : searchCap pg.1 pg.2 rEps cs with
    | none =>
      have heq : extract_utr_loop cs (pg :: rest) = extract_utr_loop cs rest := by
        rw [extract_utr_loop, hs]
      rw [heq]
      exact hrest
    | some cap =>
      have heq : extract_utr_loop cs (pg :: rest) =
          if 9 ≤ (stripChars cap).length ∧ (stripChars cap).length ≤ 20 then
            some (String.mk (stripChars cap))
          else extract_utr_loop cs rest := by
        rw [extract_utr_loop, hs]
      obtain ⟨r1, r2, hmem⟩ := searchCap_sound pg.1 pg.2 rEps cs cap hs
      have hcapalnum := hp pg (List.mem_cons_self _ _) r1 cap r2 hmem
      by_cases hl : 9 ≤ (stripChars cap).length ∧ (stripChars cap).length ≤ 20
      · refine Or.inr ⟨String.mk (stripChars cap), by rw [heq, if_pos hl], hl.1, hl.2, ?_⟩
        intro c hc
        exact hcapalnum c (stripChars_subset cap c hc)
      · rw [heq, if_neg hl]
        exact hrest

/-- Claim C10 as amended: for every input text, `extract_utr` returns
either absent or a string of 9 to 20 characters drawn from letters and
digits.  (The 12-digit guarantee holds only for the patterns whose group is
`(\d{12})`; the `[A-Z0-9]{9,20}` patterns accept 9-to-20-character
alphanumeric candidates, and the length check `9 <= len <= 20` never
coerces them to 12 digits — see the counterexample.) -/
theorem C10_utr_shape (text : String) :
    extract_utr text = none ∨
    ∃ u, extract_utr text = some u ∧ 9 ≤ u.length ∧ u.length ≤ 20 ∧
      ∀ c ∈ u.data, isAlnumC c = true := by
  rw [extract_utr]
  apply extract_utr_loop_shape
  intro pg hpg r1 cap rest hmem c hc
  have hdigit : ∀ cap' rest' r1', (cap', rest') ∈ gRepCls Char.isDigit 12 12 r1' →
      ∀ c' ∈ cap', isAlnumC c' = true := by
    intro cap' rest' r1' hm c' hc'
    have := (gRepCls_mem_spec Char.isDigit 12 12 r1' cap' rest' hm).2.2 c' hc'
    simp [isAlnumC, this]
  have halnum : ∀ cap' rest' r1', (cap', rest') ∈ gRepCls isAlnumC 9 20 r1' →
      ∀ c' ∈ cap', isAlnumC c' = true := by
    intro cap' rest' r1' hm c' hc'
    exact (gRepCls_mem_spec isAlnumC 9 20 r1' cap' rest' hm).2.2 c' hc'
  rw [utrPatternList] at hpg
  simp only [List.mem_cons, List.not_mem_nil, or_false] at hpg
  rcases hpg with h | h | h | h | h | h <;> subst h
  · exact hdigit cap rest r1 hmem c hc
  · exact hdigit cap rest r1 hmem c hc
  · exact halnum cap rest r1 hmem c hc
  · exact halnum cap rest r1 hmem c hc
  · exact halnum cap rest r1 hmem c hc
  · exact hdigit cap rest r1 hmem c hc
